import Mathlib

/-!
Shallow embedding of `pro_scan.py` (FlatSource v1.3.0), a file aggregation
tool: it scans a directory tree, selects files by extension, and copies them
into a flat destination directory with a renamed extension and a prepended
provenance header.

Python strings are modelled as `String` (a wrapper around `List Char`);
Python `str.lower`/`str.strip` are modelled on ASCII data (the only data the
tool's extension tables use).  The POSIX path separator `/` is assumed
(`os.path.join`, `os.walk`).
-/

namespace ProScan

/-! ### Python string primitives -/

/-- The characters removed by Python `str.strip()` (ASCII whitespace). -/
def pyIsSpace (c : Char) : Bool :=
  c == ' ' || c == '\t' || c == '\n' || c == '\r' || c == '\x0B' || c == '\x0C'

/-- ASCII lowercasing of one character, as done by Python `str.lower` on
ASCII input: `'A'..'Z'` shift by 32, everything else is unchanged. -/
def pyLowerChar (c : Char) : Char :=
  if 65 ≤ c.toNat && c.toNat ≤ 90 then Char.ofNat (c.toNat + 32) else c

/-- Python `str.lower` (ASCII model). -/
def pyLower (s : String) : String := ⟨s.data.map pyLowerChar⟩

/-- Python `str.strip()` on the character list: drop whitespace from both
ends. -/
def pyStripL (l : List Char) : List Char :=
  ((l.dropWhile pyIsSpace).reverse.dropWhile pyIsSpace).reverse

/-- Python `str.strip()`. -/
def pyStrip (s : String) : String := ⟨pyStripL s.data⟩

/-- An ASCII uppercase letter (`'A'..'Z'`). -/
def isUpperAscii (c : Char) : Bool :=
  65 ≤ c.toNat && c.toNat ≤ 90

/-! ### `normalize_ext` (pro_scan.py lines 27-30) -/

/-- `normalize_ext`: strip, lowercase, and ensure the extension starts with
a dot (`ext.strip().lower()`, then prepend `'.'` unless already present). -/
def normalize_ext (e : String) : String :=
  let s := pyLower (pyStrip e)
  if s.data.head? = some '.' then s else ⟨'.' :: s.data⟩

example : normalize_ext " .JS " = ".js" := by decide
example : normalize_ext "py" = ".py" := by decide
example : normalize_ext "" = "." := by decide

/-! ### Facts about `Char.ofNat` needed for the lowercase model -/

theorem toNat_ofNat_valid (n : Nat) (h : n < 55296) : (Char.ofNat n).toNat = n := by
  have hv : n.isValidChar := Or.inl h
  simp [Char.ofNat, hv, Char.ofNatAux, Char.toNat, UInt32.toNat]

theorem isUpperAscii_eq_false (c : Char) (h : ¬(65 ≤ c.toNat ∧ c.toNat ≤ 90)) :
    isUpperAscii c = false := by
  unfold isUpperAscii
  rcases Nat.lt_or_ge c.toNat 65 with h1 | h1
  · have : decide (65 ≤ c.toNat) = false := by simp; omega
    simp [this]
  · have : decide (c.toNat ≤ 90) = false := by simp; omega
    simp [this]

theorem pyLowerChar_not_upper (c : Char) : isUpperAscii (pyLowerChar c) = false := by
  unfold pyLowerChar
  split
  · next hc =>
    have h1 : 65 ≤ c.toNat ∧ c.toNat ≤ 90 := by simpa using hc
    have h32 : c.toNat + 32 < 55296 := by omega
    apply isUpperAscii_eq_false
    rw [toNat_ofNat_valid _ h32]
    omega
  · next hc =>
    apply isUpperAscii_eq_false
    simpa using hc

theorem pyLowerChar_idem (c : Char) : pyLowerChar (pyLowerChar c) = pyLowerChar c := by
  have h2 := pyLowerChar_not_upper c
  unfold isUpperAscii at h2
  set d := pyLowerChar c with hd
  unfold pyLowerChar
  rw [h2]
  simp

/-! ### Character-level facts -/

theorem beq_false_of_toNat_ne (a b : Char) (h : a.toNat ≠ b.toNat) : (a == b) = false := by
  apply beq_eq_false_iff_ne.mpr
  intro he
  exact h (by rw [he])

theorem pyIsSpace_eq_false_of_ge (c : Char) (h : 33 ≤ c.toNat) : pyIsSpace c = false := by
  have hne : ∀ b : Char, b.toNat < 33 → (c == b) = false := by
    intro b hb
    apply beq_false_of_toNat_ne
    omega
  unfold pyIsSpace
  rw [hne ' ' (by decide), hne '\t' (by decide), hne '\n' (by decide),
      hne '\r' (by decide), hne '\x0B' (by decide), hne '\x0C' (by decide)]
  rfl

theorem pyIsSpace_pyLowerChar (c : Char) : pyIsSpace (pyLowerChar c) = pyIsSpace c := by
  unfold pyLowerChar
  split
  · next hc =>
    have h1 : 65 ≤ c.toNat ∧ c.toNat ≤ 90 := by simpa using hc
    have h32 : c.toNat + 32 < 55296 := by omega
    rw [pyIsSpace_eq_false_of_ge, pyIsSpace_eq_false_of_ge]
    · omega
    · rw [toNat_ofNat_valid _ h32]; omega
  · rfl

/-! ### `dropWhile`/strip facts -/

theorem dropWhile_head_not (p : Char → Bool) (l : List Char) :
    ∀ c, (l.dropWhile p).head? = some c → p c = false := by
  induction l with
  | nil => intro c hc; simp at hc
  | cons a t ih =>
    intro c hc
    rw [List.dropWhile_cons] at hc
    split at hc
    · exact ih c hc
    · next ha =>
      simp only [List.head?_cons, Option.some.injEq] at hc
      subst hc
      simpa using ha

theorem dropWhile_eq_self_of_head (p : Char → Bool) (l : List Char)
    (h : ∀ c, l.head? = some c → p c = false) : l.dropWhile p = l := by
  cases l with
  | nil => rfl
  | cons a t =>
    rw [List.dropWhile_cons, if_neg]
    simp [h a rfl]

theorem dropWhile_idem (p : Char → Bool) (l : List Char) :
    (l.dropWhile p).dropWhile p = l.dropWhile p :=
  dropWhile_eq_self_of_head p _ (dropWhile_head_not p l)

theorem pyStripL_head_not (l : List Char) :
    ∀ c, (pyStripL l).head? = some c → pyIsSpace c = false := by
  intro c hc
  unfold pyStripL at hc
  set t := l.dropWhile pyIsSpace with ht
  set u := t.reverse.dropWhile pyIsSpace with hu
  have hsplit : t.reverse.takeWhile pyIsSpace ++ u = t.reverse := by
    rw [hu]; exact List.takeWhile_append_dropWhile pyIsSpace t.reverse
  have ht2 : t = u.reverse ++ (t.reverse.takeWhile pyIsSpace).reverse := by
    have hrev := congrArg List.reverse hsplit
    rw [List.reverse_append] at hrev
    rw [hrev, List.reverse_reverse]
  cases hur : u.reverse with
  | nil => rw [hur] at hc; simp at hc
  | cons x xs =>
    rw [hur] at hc
    simp only [List.head?_cons, Option.some.injEq] at hc
    subst hc
    apply dropWhile_head_not pyIsSpace l
    rw [← ht, ht2, hur]
    simp

theorem pyStripL_revhead_not (l : List Char) :
    ∀ c, (pyStripL l).reverse.head? = some c → pyIsSpace c = false := by
  intro c hc
  unfold pyStripL at hc
  rw [List.reverse_reverse] at hc
  exact dropWhile_head_not pyIsSpace _ c hc

theorem pyStripL_eq_self (l : List Char)
    (h1 : ∀ c, l.head? = some c → pyIsSpace c = false)
    (h2 : ∀ c, l.reverse.head? = some c → pyIsSpace c = false) :
    pyStripL l = l := by
  unfold pyStripL
  rw [dropWhile_eq_self_of_head pyIsSpace _ h1,
      dropWhile_eq_self_of_head pyIsSpace _ h2,
      List.reverse_reverse]

theorem pyStripL_idem (l : List Char) : pyStripL (pyStripL l) = pyStripL l :=
  pyStripL_eq_self _ (pyStripL_head_not l) (pyStripL_revhead_not l)

theorem pyStripL_map_pyLowerChar (l : List Char) :
    pyStripL (l.map pyLowerChar) = (pyStripL l).map pyLowerChar := by
  have hp : (pyIsSpace ∘ pyLowerChar) = pyIsSpace := by
    funext c; simp [Function.comp, pyIsSpace_pyLowerChar]
  unfold pyStripL
  conv_lhs => rw [List.dropWhile_map, hp, ← List.map_reverse, List.dropWhile_map, hp]
  rw [List.map_reverse]

theorem map_pyLowerChar_idem (l : List Char) :
    (l.map pyLowerChar).map pyLowerChar = l.map pyLowerChar := by
  rw [List.map_map]
  apply List.map_congr_left
  intro a _
  exact pyLowerChar_idem a

/-! ### C9 support -/

theorem data_mk (l : List Char) : (String.mk l).data = l := rfl

theorem normalize_ext_head (e : String) : (normalize_ext e).data.head? = some '.' := by
  simp only [normalize_ext]
  split
  · assumption
  · rfl

theorem normalize_ext_no_upper (e : String) :
    ∀ c ∈ (normalize_ext e).data, isUpperAscii c = false := by
  intro c hc
  simp only [normalize_ext] at hc
  have hmem : ∀ x ∈ (pyLower (pyStrip e)).data, isUpperAscii x = false := by
    intro x hx
    simp only [pyLower, pyStrip, List.mem_map] at hx
    obtain ⟨y, _, hy⟩ := hx
    rw [← hy]
    exact pyLowerChar_not_upper y
  split at hc
  · exact hmem c hc
  · rw [data_mk, List.mem_cons] at hc
    rcases hc with hc | hc
    · subst hc; decide
    · exact hmem c hc

theorem normalize_ext_fixed (x : String)
    (hstrip : pyStripL x.data = x.data)
    (hlower : x.data.map pyLowerChar = x.data)
    (hhead : x.data.head? = some '.') :
    normalize_ext x = x := by
  simp only [normalize_ext]
  have h1 : pyStrip x = x := by
    unfold pyStrip
    rw [hstrip]
  have h2 : pyLower x = x := by
    unfold pyLower
    rw [hlower]
  rw [h1, h2, if_pos hhead]

theorem normalize_ext_strip_fixed (e : String) :
    pyStripL (normalize_ext e).data = (normalize_ext e).data := by
  simp only [normalize_ext]
  split
  · show pyStripL (pyLower (pyStrip e)).data = _
    simp only [pyLower, pyStrip]
    rw [pyStripL_map_pyLowerChar, pyStripL_idem]
  · show pyStripL ('.' :: (pyLower (pyStrip e)).data) = _
    simp only [pyLower, pyStrip]
    set z := (pyStripL e.data).map pyLowerChar with hz
    unfold pyStripL
    rw [List.dropWhile_cons, if_neg (by decide)]
    rw [dropWhile_eq_self_of_head, List.reverse_reverse]
    intro c hc
    rw [List.reverse_cons, List.head?_append] at hc
    cases hzr : z.reverse.head? with
    | none =>
      rw [hzr] at hc
      simp only [Option.or] at hc
      simp only [List.head?_cons, Option.some.injEq] at hc
      subst hc; decide
    | some c0 =>
      rw [hzr] at hc
      simp only [Option.or, Option.some.injEq] at hc
      subst hc
      rw [← List.map_reverse, List.head?_map] at hzr
      cases hy : (pyStripL e.data).reverse.head? with
      | none => rw [hy] at hzr; simp at hzr
      | some y =>
        rw [hy] at hzr
        simp only [Option.map_some', Option.some.injEq] at hzr
        subst hzr
        rw [pyIsSpace_pyLowerChar]
        exact pyStripL_revhead_not e.data y hy

theorem normalize_ext_lower_fixed (e : String) :
    (normalize_ext e).data.map pyLowerChar = (normalize_ext e).data := by
  simp only [normalize_ext]
  split
  · show (pyLower (pyStrip e)).data.map pyLowerChar = _
    simp only [pyLower, pyStrip]
    exact map_pyLowerChar_idem _
  · show ('.' :: (pyLower (pyStrip e)).data).map pyLowerChar = _
    simp only [pyLower, pyStrip, List.map_cons]
    rw [map_pyLowerChar_idem]
    rfl

/-- C9: `normalize_ext` is idempotent, and its output always begins with a
dot and contains no (ASCII) uppercase letter. -/
theorem C9_normalize_ext_idem_lower_dotted (e : String) :
    normalize_ext (normalize_ext e) = normalize_ext e ∧
    (normalize_ext e).data.head? = some '.' ∧
    ∀ c ∈ (normalize_ext e).data, isUpperAscii c = false := by
  refine ⟨?_, normalize_ext_head e, normalize_ext_no_upper e⟩
  exact normalize_ext_fixed _ (normalize_ext_strip_fixed e)
    (normalize_ext_lower_fixed e) (normalize_ext_head e)

/-! ### `get_header_comment` (pro_scan.py lines 32-63)

The Python function computes `relative_path` from `source_path`/`root_dir`
via `os.path.relpath` (falling back to `source_path` on `ValueError`) and a
wall-clock timestamp; both are environment inputs, modelled here as the
parameters `rel` and `ts`.  The prefix table is transcribed verbatim from
the source. -/

def hashStyle : List String :=
  [".py", ".rb", ".sh", ".yaml", ".yml", ".conf", ".toml", ".pl", ".dockerfile"]

def slashStyle : List String :=
  [".c", ".cpp", ".cs", ".java", ".js", ".jsx", ".ts", ".tsx",
   ".sol", ".go", ".rs", ".php", ".swift", ".dart", ".txt", ".css", ".scss"]

def dashStyle : List String := [".sql", ".lua", ".hs"]

def markupStyle : List String := [".html", ".xml", ".htm", ".svg", ".ejs", ".vue", ".jsp"]

/-- `get_header_comment`: pick the comment prefix from the output extension,
assemble the one-line header, and close it for markup-style comments. -/
def get_header_comment (extension rel ts : String) : String :=
  let ext := normalize_ext extension
  let pfx :=
    if hashStyle.contains ext then "# "
    else if slashStyle.contains ext then "// "
    else if dashStyle.contains ext then "-- "
    else if markupStyle.contains ext then "<!-- "
    else ":: "
  let header := pfx ++ "ORIGINAL_PATH: " ++ rel ++ " | ARCHIVED: " ++ ts
  if pfx == "<!-- " then header ++ " -->" else header

/-- The comment prefix of the spec's family table (§4.4). -/
def commentMark (ext : String) : String :=
  if hashStyle.contains ext then "# "
  else if slashStyle.contains ext then "// "
  else if dashStyle.contains ext then "-- "
  else if markupStyle.contains ext then "<!-- "
  else ":: "

/-- The closing suffix of the spec's family table: only the markup family
closes its comment. -/
def commentClose (ext : String) : String :=
  if markupStyle.contains ext then " -->" else ""

theorem hash_not_markup (x : String) (h : hashStyle.contains x = true) :
    markupStyle.contains x = false := by
  have hx : x ∈ hashStyle := by simpa using h
  fin_cases hx <;> decide

theorem slash_not_markup (x : String) (h : slashStyle.contains x = true) :
    markupStyle.contains x = false := by
  have hx : x ∈ slashStyle := by simpa using h
  fin_cases hx <;> decide

theorem dash_not_markup (x : String) (h : dashStyle.contains x = true) :
    markupStyle.contains x = false := by
  have hx : x ∈ dashStyle := by simpa using h
  fin_cases hx <;> decide

theorem get_header_comment_eq (extension rel ts : String) :
    get_header_comment extension rel ts =
      commentMark (normalize_ext extension) ++ "ORIGINAL_PATH: " ++ rel ++
        " | ARCHIVED: " ++ ts ++ commentClose (normalize_ext extension) := by
  simp only [get_header_comment, commentMark, commentClose]
  split
  · next h =>
    rw [if_neg (by decide), hash_not_markup _ h]
    simp
  · split
    · next h =>
      rw [if_neg (by decide), slash_not_markup _ h]
      simp
    · split
      · next h =>
        rw [if_neg (by decide), dash_not_markup _ h]
        simp
      · split
        · rw [if_pos (by decide)]
        · rw [if_neg (by decide)]
          simp

/-- C8: the header is `<prefix>ORIGINAL_PATH: <rel> | ARCHIVED: <ts>` with
the prefix chosen by the normalized output extension from the fixed family
table, closed with ` -->` exactly for the markup family; in particular
`.py` gives `# `, `.html` gives `<!-- ` with closing ` -->`, and an
unrecognized `.xyz` gives `:: `. -/
theorem C8_get_header_comment_table (extension rel ts : String) :
    (get_header_comment extension rel ts =
      commentMark (normalize_ext extension) ++ "ORIGINAL_PATH: " ++ rel ++
        " | ARCHIVED: " ++ ts ++ commentClose (normalize_ext extension)) ∧
    get_header_comment ".py" rel ts =
      "# ORIGINAL_PATH: " ++ rel ++ " | ARCHIVED: " ++ ts ∧
    get_header_comment ".html" rel ts =
      "<!-- ORIGINAL_PATH: " ++ rel ++ " | ARCHIVED: " ++ ts ++ " -->" ∧
    get_header_comment ".xyz" rel ts =
      ":: ORIGINAL_PATH: " ++ rel ++ " | ARCHIVED: " ++ ts := by
  refine ⟨get_header_comment_eq extension rel ts, ?_, ?_, ?_⟩
  · rw [get_header_comment_eq]
    rw [show normalize_ext ".py" = ".py" from by decide]
    rw [show commentMark ".py" = "# " from by decide,
        show commentClose ".py" = "" from by decide]
    rw [String.append_assoc, String.append_empty,
        show ("# " ++ "ORIGINAL_PATH: ") = "# ORIGINAL_PATH: " from by decide]
  · rw [get_header_comment_eq]
    rw [show normalize_ext ".html" = ".html" from by decide]
    rw [show commentMark ".html" = "<!-- " from by decide,
        show commentClose ".html" = " -->" from by decide]
    rw [show ("<!-- " ++ "ORIGINAL_PATH: ") = "<!-- ORIGINAL_PATH: " from by decide]
  · rw [get_header_comment_eq]
    rw [show normalize_ext ".xyz" = ".xyz" from by decide]
    rw [show commentMark ".xyz" = ":: " from by decide,
        show commentClose ".xyz" = "" from by decide]
    rw [String.append_assoc, String.append_empty,
        show (":: " ++ "ORIGINAL_PATH: ") = ":: ORIGINAL_PATH: " from by decide]

/-! ### Python `dict` model (insertion order, in-place update) -/

def dictKeys (m : List (String × String)) : List String := m.map Prod.fst

/-- `d[k] = v` on a Python dict: update in place if the key exists,
otherwise append. -/
def dictInsert (m : List (String × String)) (k v : String) : List (String × String) :=
  if (dictKeys m).contains k then
    m.map (fun p => if p.1 == k then (k, v) else p)
  else m ++ [(k, v)]

/-- `d.get(k)` on a Python dict. -/
def dictGet? (m : List (String × String)) (k : String) : Option String :=
  (m.find? (fun p => p.1 == k)).map Prod.snd

/-! ### `create_extension_mapping` (pro_scan.py lines 87-117) -/

/-- `create_extension_mapping`: normalize both lists; a single output maps
every input to it; otherwise pair by position with fallback `.txt`
(`normalized_out[i]` when `i < len(normalized_out)`, else `".txt"`). -/
def create_extension_mapping (in_exts out_exts : List String) : List (String × String) :=
  let nIn := in_exts.map normalize_ext
  let nOut := out_exts.map normalize_ext
  if nOut.length = 1 then
    nIn.foldl (fun m e => dictInsert m e (nOut.headD ".txt")) []
  else
    nIn.enum.foldl (fun m p => dictInsert m p.2 (nOut.getD p.1 ".txt")) []

example : create_extension_mapping ["js", "css", "html"] ["txt"] =
    [(".js", ".txt"), (".css", ".txt"), (".html", ".txt")] := by decide
example : create_extension_mapping ["JS", "js"] ["x", "y"] = [(".js", ".y")] := by decide

/-! ### Dict lemmas -/

theorem str_contains_iff (l : List String) (a : String) : l.contains a = true ↔ a ∈ l := by
  rw [List.contains_iff_exists_mem_beq]
  constructor
  · rintro ⟨b, hb, hab⟩
    rwa [show a = b from beq_iff_eq.mp hab]
  · intro h
    exact ⟨a, h, by simp⟩

theorem dictKeys_insert (m : List (String × String)) (k v : String) :
    dictKeys (dictInsert m k v) =
      if (dictKeys m).contains k then dictKeys m else dictKeys m ++ [k] := by
  unfold dictInsert
  split
  · unfold dictKeys
    rw [List.map_map]
    apply List.map_congr_left
    intro p _
    simp only [Function.comp]
    split
    · next hpk => exact (beq_iff_eq.mp hpk).symm
    · rfl
  · unfold dictKeys
    rw [List.map_append]
    rfl

theorem dictKeys_insert_nodup (m : List (String × String)) (k v : String)
    (h : (dictKeys m).Nodup) : (dictKeys (dictInsert m k v)).Nodup := by
  rw [dictKeys_insert]
  split
  · exact h
  · next hc =>
    have hk : k ∉ dictKeys m := fun hmem => hc ((str_contains_iff _ _).mpr hmem)
    simp [List.nodup_append, h, hk]

theorem find?_map_update (t : List (String × String)) (k v key : String) (hkey : k ≠ key) :
    (t.map (fun p => if p.1 == k then (k, v) else p)).find? (fun p => p.1 == key) =
      t.find? (fun p => p.1 == key) := by
  induction t with
  | nil => rfl
  | cons p t ih =>
    rw [List.map_cons]
    by_cases hpk : p.1 = k
    · rw [if_pos (by simpa using hpk)]
      rw [List.find?_cons_of_neg _ (by simpa using hkey),
          List.find?_cons_of_neg _ (by simp [hpk, hkey]), ih]
    · rw [if_neg (by simpa using hpk)]
      by_cases hpkey : p.1 = key
      · rw [List.find?_cons_of_pos _ (by simpa using hpkey),
            List.find?_cons_of_pos _ (by simpa using hpkey)]
      · rw [List.find?_cons_of_neg _ (by simpa using hpkey),
            List.find?_cons_of_neg _ (by simpa using hpkey), ih]

theorem find?_map_update_self (t : List (String × String)) (k v : String)
    (hc : k ∈ dictKeys t) :
    (t.map (fun p => if p.1 == k then (k, v) else p)).find? (fun p => p.1 == k) =
      some (k, v) := by
  induction t with
  | nil => simp [dictKeys] at hc
  | cons p t ih =>
    rw [List.map_cons]
    by_cases hpk : p.1 = k
    · rw [if_pos (by simpa using hpk)]
      rw [List.find?_cons_of_pos _ (by simp)]
    · rw [if_neg (by simpa using hpk)]
      rw [List.find?_cons_of_neg _ (by simpa using hpk)]
      apply ih
      rcases List.mem_cons.mp hc with h1 | h2
      · exact absurd h1.symm hpk
      · exact h2

theorem dictGet?_insert (m : List (String × String)) (k v key : String) :
    dictGet? (dictInsert m k v) key = if k == key then some v else dictGet? m key := by
  unfold dictInsert
  by_cases hc : (dictKeys m).contains k = true
  · rw [if_pos hc]
    by_cases hkk : k = key
    · subst hkk
      unfold dictGet?
      rw [find?_map_update_self m k v ((str_contains_iff _ _).mp hc),
          if_pos (show (k == k) = true by simp)]
      rfl
    · unfold dictGet?
      rw [find?_map_update m k v key hkk,
          if_neg (show ¬((k == key) = true) by simpa using hkk)]
  · rw [if_neg hc]
    by_cases hkk : k = key
    · subst hkk
      unfold dictGet?
      rw [List.find?_append]
      have hm : m.find? (fun p => p.1 == k) = none := by
        rw [List.find?_eq_none]
        intro p hp hpk
        exact hc ((str_contains_iff _ _).mpr
          (by rw [← show p.1 = k from by simpa using hpk]
              exact List.mem_map_of_mem Prod.fst hp))
      rw [hm, Option.none_or, List.find?_cons_of_pos _ (by simp),
          if_pos (show (k == k) = true by simp)]
      rfl
    · unfold dictGet?
      rw [List.find?_append]
      have h2 : List.find? (fun p => p.1 == key) [(k, v)] = none := by
        rw [List.find?_eq_none]
        intro p hp
        rcases List.mem_singleton.mp hp with rfl
        simpa using hkk
      rw [h2, if_neg (show ¬((k == key) = true) by simpa using hkk)]
      cases m.find? (fun p => p.1 == key) <;> rfl

/-- The value paired with the last occurrence of `key` in an association
list (Python dict insertion semantics: later assignments win). -/
def lastVal? : List (String × String) → String → Option String
  | [], _ => none
  | p :: rest, k =>
    match lastVal? rest k with
    | some v => some v
    | none => if p.1 == k then some p.2 else none

theorem dictGet?_foldl_insert_const (l : List String) (t : String)
    (m : List (String × String)) (key : String) :
    dictGet? (l.foldl (fun acc e => dictInsert acc e t) m) key =
      match lastVal? (l.map (fun e => (e, t))) key with
      | some v => some v
      | none => dictGet? m key := by
  induction l generalizing m with
  | nil => simp [lastVal?]
  | cons a l ih =>
    rw [List.foldl_cons, ih (dictInsert m a t), List.map_cons]
    cases hl : lastVal? (l.map (fun e => (e, t))) key with
    | some v => simp only [lastVal?, hl]
    | none =>
      simp only [lastVal?, hl]
      rw [dictGet?_insert]
      by_cases hp : (a == key) = true
      · rw [if_pos hp, if_pos hp]
      · rw [if_neg hp, if_neg hp]

theorem dictGet?_foldl_insert_pos (l : List (Nat × String)) (nOut : List String)
    (m : List (String × String)) (key : String) :
    dictGet? (l.foldl (fun acc p => dictInsert acc p.2 (nOut.getD p.1 ".txt")) m) key =
      match lastVal? (l.map (fun p => (p.2, nOut.getD p.1 ".txt"))) key with
      | some v => some v
      | none => dictGet? m key := by
  induction l generalizing m with
  | nil => simp [lastVal?]
  | cons a l ih =>
    rw [List.foldl_cons, ih, List.map_cons]
    cases hl : lastVal? (l.map (fun p => (p.2, nOut.getD p.1 ".txt"))) key with
    | some v => simp only [lastVal?, hl]
    | none =>
      simp only [lastVal?, hl]
      rw [dictGet?_insert]
      by_cases hp : (a.2 == key) = true
      · rw [if_pos hp, if_pos hp]
      · rw [if_neg hp, if_neg hp]

theorem dictKeys_foldl_nodup_const (l : List String) (t : String)
    (m : List (String × String)) (h : (dictKeys m).Nodup) :
    (dictKeys (l.foldl (fun acc e => dictInsert acc e t) m)).Nodup := by
  induction l generalizing m with
  | nil => exact h
  | cons a l ih =>
    rw [List.foldl_cons]
    exact ih _ (dictKeys_insert_nodup m a t h)

theorem dictKeys_foldl_nodup_pos (l : List (Nat × String)) (nOut : List String)
    (m : List (String × String)) (h : (dictKeys m).Nodup) :
    (dictKeys
      (l.foldl (fun acc p => dictInsert acc p.2 (nOut.getD p.1 ".txt")) m)).Nodup := by
  induction l generalizing m with
  | nil => exact h
  | cons a l ih =>
    rw [List.foldl_cons]
    exact ih _ (dictKeys_insert_nodup m a.2 _ h)

theorem lastVal?_eq_none (ps : List (String × String)) (key : String)
    (h : ∀ p ∈ ps, p.1 ≠ key) : lastVal? ps key = none := by
  induction ps with
  | nil => rfl
  | cons p t ih =>
    simp only [lastVal?, ih (fun q hq => h q (List.mem_cons_of_mem p hq))]
    rw [if_neg]
    simp only [beq_iff_eq]
    exact h p (List.mem_cons_self p t)

theorem lastVal?_const_pairs (l : List String) (t key : String) :
    lastVal? (l.map (fun e => (e, t))) key = if key ∈ l then some t else none := by
  induction l with
  | nil => simp [lastVal?]
  | cons a l ih =>
    rw [List.map_cons]
    simp only [lastVal?, ih]
    by_cases hm : key ∈ l
    · rw [if_pos hm, if_pos (List.mem_cons_of_mem a hm)]
    · rw [if_neg hm]
      by_cases hak : a = key
      · subst hak
        rw [if_pos (by simp), if_pos (List.mem_cons_self a l)]
      · have hka : ¬key = a := fun he => hak he.symm
        rw [if_neg (by simpa using hak), if_neg (by simp [hm, hka])]

theorem lastVal?_enumFrom_last (l nOut : List String) (n i : Nat)
    (h : i < l.length)
    (hlast : ∀ j (hj : j < l.length), i < j → l.get ⟨j, hj⟩ ≠ l.get ⟨i, h⟩) :
    lastVal? ((l.enumFrom n).map (fun p => (p.2, nOut.getD p.1 ".txt")))
        (l.get ⟨i, h⟩) =
      some (nOut.getD (n + i) ".txt") := by
  induction l generalizing n i with
  | nil => simp at h
  | cons a t ih =>
    rw [List.enumFrom_cons, List.map_cons]
    cases i with
    | zero =>
      have hnone :
          lastVal? ((t.enumFrom (n + 1)).map (fun p => (p.2, nOut.getD p.1 ".txt")))
            a = none := by
        apply lastVal?_eq_none
        intro p hp hpa
        rcases List.mem_map.mp hp with ⟨q, hq, hqp⟩
        have hq2 : q.2 ∈ t := by
          have hsnd := List.enumFrom_map_snd (n + 1) t
          rw [← hsnd]
          exact List.mem_map_of_mem Prod.snd hq
        rcases List.get_of_mem hq2 with ⟨⟨j, hj⟩, hgj⟩
        apply hlast (j + 1) (Nat.succ_lt_succ hj) (Nat.succ_pos j)
        show t.get ⟨j, hj⟩ = (a :: t).get ⟨0, h⟩
        rw [hgj]
        have hp1 : p.1 = q.2 := by rw [← hqp]
        rw [← hp1, hpa]
        rfl
      have hkey : (a :: t).get ⟨0, h⟩ = a := rfl
      rw [hkey]
      simp only [lastVal?, hnone]
      rw [if_pos (by simp), Nat.add_zero]
    | succ i' =>
      have h' : i' < t.length := Nat.lt_of_succ_lt_succ h
      have hkey : (a :: t).get ⟨i' + 1, h⟩ = t.get ⟨i', h'⟩ := rfl
      rw [hkey]
      have hlast' : ∀ j (hj : j < t.length), i' < j →
          t.get ⟨j, hj⟩ ≠ t.get ⟨i', h'⟩ := by
        intro j hj hij
        exact hlast (j + 1) (Nat.succ_lt_succ hj) (Nat.succ_lt_succ hij)
      have ihh := ih (n + 1) i' h' hlast'
      simp only [lastVal?, ihh]
      rw [show n + 1 + i' = n + (i' + 1) from by omega]

/-! ### C6 and C10 -/

theorem create_mapping_single (ins : List String) (out1 : String) :
    create_extension_mapping ins [out1] =
      (ins.map normalize_ext).foldl
        (fun m e => dictInsert m e (normalize_ext out1)) [] := by
  simp only [create_extension_mapping, List.map_cons, List.map_nil, List.length_cons,
    List.length_nil, if_pos rfl]
  rfl

theorem create_mapping_positional (ins outs : List String)
    (hlen : (outs.map normalize_ext).length ≠ 1) :
    create_extension_mapping ins outs =
      (ins.map normalize_ext).enum.foldl
        (fun m p => dictInsert m p.2 ((outs.map normalize_ext).getD p.1 ".txt")) [] := by
  simp only [create_extension_mapping, if_neg hlen]

/-- C6: with a single output extension every normalized input maps to it;
otherwise inputs pair with outputs positionally (for pairwise-distinct
normalized inputs), with indices past the output list defaulting to
`.txt`; the spec's two examples evaluate accordingly. -/
theorem C6_create_extension_mapping_modes :
    (∀ (ins : List String) (out1 e : String), e ∈ ins →
      dictGet? (create_extension_mapping ins [out1]) (normalize_ext e) =
        some (normalize_ext out1)) ∧
    (∀ (ins outs : List String), (ins.map normalize_ext).Nodup →
      (outs.map normalize_ext).length ≠ 1 →
      ∀ i (h : i < (ins.map normalize_ext).length),
        dictGet? (create_extension_mapping ins outs) ((ins.map normalize_ext).get ⟨i, h⟩) =
          some ((outs.map normalize_ext).getD i ".txt")) ∧
    create_extension_mapping ["js", "css", "html"] ["md"] =
      [(".js", ".md"), (".css", ".md"), (".html", ".md")] ∧
    create_extension_mapping ["js", "css", "html"] ["md", "rst"] =
      [(".js", ".md"), (".css", ".rst"), (".html", ".txt")] := by
  refine ⟨?_, ?_, by decide, by decide⟩
  · intro ins out1 e he
    rw [create_mapping_single, dictGet?_foldl_insert_const, lastVal?_const_pairs,
        if_pos (List.mem_map_of_mem normalize_ext he)]
  · intro ins outs hnd hlen i h
    rw [create_mapping_positional ins outs hlen, dictGet?_foldl_insert_pos]
    have hlast : ∀ j (hj : j < (ins.map normalize_ext).length), i < j →
        (ins.map normalize_ext).get ⟨j, hj⟩ ≠ (ins.map normalize_ext).get ⟨i, h⟩ := by
      intro j hj hij he
      have hji : j = i := by
        have h2 := (List.Nodup.get_inj_iff hnd).mp he
        simpa using h2
      omega
    have hlv := lastVal?_enumFrom_last (ins.map normalize_ext)
      (outs.map normalize_ext) 0 i h hlast
    rw [show (ins.map normalize_ext).enum = (ins.map normalize_ext).enumFrom 0 from rfl,
        hlv, Nat.zero_add]

/-- C10: duplicate normalized input extensions collapse to a single key
(keys are always pairwise distinct), and in positional mode the output
paired with the last occurrence wins; `[js, js]` with `[x, y]` yields
`{.js: .y}`. -/
theorem C10_create_extension_mapping_duplicates :
    (∀ ins outs : List String, (dictKeys (create_extension_mapping ins outs)).Nodup) ∧
    (∀ (ins outs : List String), (outs.map normalize_ext).length ≠ 1 →
      ∀ i (h : i < (ins.map normalize_ext).length),
      (∀ j (hj : j < (ins.map normalize_ext).length), i < j →
          (ins.map normalize_ext).get ⟨j, hj⟩ ≠ (ins.map normalize_ext).get ⟨i, h⟩) →
      dictGet? (create_extension_mapping ins outs) ((ins.map normalize_ext).get ⟨i, h⟩) =
        some ((outs.map normalize_ext).getD i ".txt")) ∧
    create_extension_mapping ["js", "js"] ["x", "y"] = [(".js", ".y")] := by
  refine ⟨?_, ?_, by decide⟩
  · intro ins outs
    simp only [create_extension_mapping]
    split
    · exact dictKeys_foldl_nodup_const _ _ [] List.nodup_nil
    · exact dictKeys_foldl_nodup_pos _ _ [] List.nodup_nil
  · intro ins outs hlen i h hlast
    rw [create_mapping_positional ins outs hlen, dictGet?_foldl_insert_pos]
    have hlv := lastVal?_enumFrom_last (ins.map normalize_ext)
      (outs.map normalize_ext) 0 i h hlast
    rw [show (ins.map normalize_ext).enum = (ins.map normalize_ext).enumFrom 0 from rfl,
        hlv, Nat.zero_add]

/-- Witness for C6: concrete instantiation of both quantified parts. -/
theorem C6_witness :
    dictGet? (create_extension_mapping ["js", "css"] ["md"]) ".css" = some ".md" ∧
    dictGet? (create_extension_mapping ["js", "css", "html"] ["md", "rst"]) ".html" =
      some ".txt" := by
  constructor
  · exact C6_create_extension_mapping_modes.1 ["js", "css"] "md" "css" (by decide)
  · exact C6_create_extension_mapping_modes.2.1 ["js", "css", "html"] ["md", "rst"]
      (by decide) (by decide) 2 (by decide)

/-- Witness for C10: the last-occurrence clause at the `[js, js]` example. -/
theorem C10_witness :
    dictGet? (create_extension_mapping ["js", "js"] ["x", "y"]) ".js" = some ".y" := by
  exact C10_create_extension_mapping_duplicates.2.1 ["js", "js"] ["x", "y"]
    (by decide) 1 (by decide)
    (by
      intro j hj hij _
      have hj2 : j < 2 := by simpa using hj
      omega)

/-! ### `os.path.splitext` (CPython semantics on a bare filename)

CPython splits at the rightmost dot unless every character before it is a
dot (leading dots of the basename never start an extension; `.js` has no
extension, `foo.` has extension `"."`). -/

def lastDotIdx? : List Char → Option Nat
  | [] => none
  | c :: rest =>
    match lastDotIdx? rest with
    | some i => some (i + 1)
    | none => if c == '.' then some 0 else none

def splitext (name : String) : String × String :=
  match lastDotIdx? name.data with
  | none => (name, "")
  | some d =>
    if (name.data.take d).all (fun c => c == '.') then (name, "")
    else (⟨name.data.take d⟩, ⟨name.data.drop d⟩)

example : splitext "app.js" = ("app", ".js") := by decide
example : splitext "archive.tar.gz" = ("archive.tar", ".gz") := by decide
example : splitext ".js" = (".js", "") := by decide
example : splitext "foo." = ("foo", ".") := by decide
example : splitext "noext" = ("noext", "") := by decide

/-! ### `fnmatch` (POSIX, no case normalization)

The pattern is compiled to a token list (`*`, `?`, `[...]` classes with
optional `!` negation and `a-z` ranges, literals); an unterminated `[` is a
literal.  `*` matches any (possibly empty) sequence. -/

def classBodyGo : List Char → Option (List Char × List Char)
  | [] => none
  | ']' :: rest => some ([], rest)
  | c :: rest => (classBodyGo rest).map (fun p => (c :: p.1, p.2))

/-- Split `l` (the characters after `[`) into the raw class body and the
remainder after the closing `]`, with CPython's skip rules: a leading `!`
and then a leading `]` are part of the body. -/
def classBody : List Char → Option (List Char × List Char)
  | '!' :: ']' :: rest => (classBodyGo rest).map (fun p => ('!' :: ']' :: p.1, p.2))
  | '!' :: rest => (classBodyGo rest).map (fun p => ('!' :: p.1, p.2))
  | ']' :: rest => (classBodyGo rest).map (fun p => (']' :: p.1, p.2))
  | l => classBodyGo l

/-- Membership of a character in a (non-negated) class body, with `a-b`
ranges by code point and a trailing `-` literal. -/
def classMatch : List Char → Char → Bool
  | [], _ => false
  | a :: '-' :: b :: rest, c =>
    (decide (a.toNat ≤ c.toNat) && decide (c.toNat ≤ b.toNat)) || classMatch rest c
  | a :: rest, c => (a == c) || classMatch rest c

inductive GTok : Type where
  | lit : Char → GTok
  | star : GTok
  | anyChar : GTok
  | cls : Bool → List Char → GTok
deriving DecidableEq

def parsePatternF : Nat → List Char → List GTok
  | 0, _ => []
  | _ + 1, [] => []
  | fuel + 1, '*' :: ps => .star :: parsePatternF fuel ps
  | fuel + 1, '?' :: ps => .anyChar :: parsePatternF fuel ps
  | fuel + 1, '[' :: ps =>
    (match classBody ps with
     | none => .lit '[' :: parsePatternF fuel ps
     | some (body, rest) =>
       (match body with
        | '!' :: bodyTail => GTok.cls true bodyTail
        | _ => GTok.cls false body) :: parsePatternF fuel rest)
  | fuel + 1, c :: ps => .lit c :: parsePatternF fuel ps

/-- Each parser step consumes at least one character, so `p.length` fuel
always suffices. -/
def parsePattern (p : List Char) : List GTok := parsePatternF p.length p

def gmatch : List GTok → List Char → Bool
  | [], [] => true
  | [], _ :: _ => false
  | .star :: ts, s => s.tails.any (fun t => gmatch ts t)
  | .anyChar :: ts, s =>
    (match s with
     | [] => false
     | _ :: cs => gmatch ts cs)
  | .cls neg body :: ts, s =>
    (match s with
     | [] => false
     | c :: cs =>
       (if neg then !(classMatch body c) else classMatch body c) && gmatch ts cs)
  | .lit a :: ts, s =>
    (match s with
     | [] => false
     | c :: cs => (a == c) && gmatch ts cs)

/-- `fnmatch.fnmatch(name, pattern)` (POSIX `normcase` is the identity). -/
def fnmatch (name pat : String) : Bool := gmatch (parsePattern pat.data) name.data

example : fnmatch "node_modules" "node_*" = true := by decide
example : fnmatch "node_modules" "node_modules" = true := by decide
example : fnmatch "src" "node_*" = false := by decide
example : fnmatch "build" "[bB]uild" = true := by decide
example : fnmatch "x" "[!a-w]" = true := by decide
example : fnmatch "b" "[!a-w]" = false := by decide

/-- `check_exclusions` (pro_scan.py lines 65-71). -/
def check_exclusions (dirname : String) (exclude_patterns : List String) : Bool :=
  exclude_patterns.any (fun pattern => fnmatch dirname pattern)

example : check_exclusions "src" [] = false := by decide
example : check_exclusions "node_modules" ["venv", "node_*"] = true := by decide

/-! ### `os.walk` with in-place pruning

A directory tree is `Dir.node files subdirs`, with the subdirectory list
given by the mutually inductive `Subs` (name/tree pairs).  `walkD` yields,
top-down, the pair (list of directory components below the root, filename)
of every file in a non-pruned directory; subdirectories whose name matches
an exclude pattern are removed from the traversal set before descending
(`del dirs[i]` in both traversal loops of the source). -/

mutual
inductive Dir : Type where
  | node : List String → Subs → Dir
inductive Subs : Type where
  | nil : Subs
  | cons : String → Dir → Subs → Subs
end

mutual
def walkD (excludes : List String) : Dir → List (List String × String)
  | .node fs subs => fs.map (fun f => (([] : List String), f)) ++ walkSubs excludes subs
def walkSubs (excludes : List String) : Subs → List (List String × String)
  | .nil => []
  | .cons nm d rest =>
    (if check_exclusions nm excludes then []
     else (walkD excludes d).map (fun q => (nm :: q.1, q.2))) ++ walkSubs excludes rest
end

example :
    walkD ["sub"] (.node ["a.js"] (.cons "sub" (.node ["c.js"] .nil)
      (.cons "keep" (.node ["d.js"] .nil) .nil))) =
      [([], "a.js"), (["keep"], "d.js")] := by decide

/-! ### Candidate selection of the two passes -/

/-- Python `filename.lower().endswith(ext)`. -/
def pyEndsWith (s sfx : String) : Bool := decide (sfx.data <:+ s.data)

/-- The counting pass's file test (line 83): suffix match against any
target extension. -/
def countMatch (target_exts : List String) (filename : String) : Bool :=
  target_exts.any (fun ext => pyEndsWith (pyLower filename) ext)

/-- The processing pass's file test (lines 184-188): the lowercased
`splitext` extension is a key of the mapping. -/
def procMatch (ext_map : List (String × String)) (filename : String) : Bool :=
  (dictKeys ext_map).contains (pyLower (splitext filename).2)

/-- The files the counting pass counts, in traversal order. -/
def countCands (root_dir : Dir) (target_exts excludes : List String) :
    List (List String × String) :=
  (walkD excludes root_dir).filter (fun c => countMatch target_exts c.2)

/-- `count_total_files` (pro_scan.py lines 73-85). -/
def count_total_files (root_dir : Dir) (target_exts excludes : List String) : Nat :=
  (countCands root_dir target_exts excludes).length

/-- The candidate files the processing loop acts on, in traversal order. -/
def procCands (root_dir : Dir) (ext_map : List (String × String))
    (excludes : List String) : List (List String × String) :=
  (walkD excludes root_dir).filter (fun c => procMatch ext_map c.2)

/-! ### Collision-safe destination naming (pro_scan.py lines 206-215) -/

/-- Decimal digit as a character. -/
def digitChar (d : Nat) : Char := Char.ofNat (48 + d)

/-- Little-endian decimal digits of `n` (fuel-structural; `n` itself is
enough fuel since `n / 10 < n`). -/
def natDigitsF : Nat → Nat → List Char
  | 0, _ => []
  | _ + 1, 0 => []
  | fuel + 1, n + 1 => digitChar ((n + 1) % 10) :: natDigitsF fuel ((n + 1) / 10)

/-- Python `str(n)` for a natural number. -/
def natStr (n : Nat) : String := if n = 0 then "0" else ⟨(natDigitsF n n).reverse⟩

example : natStr 0 = "0" := by decide
example : natStr 7 = "7" := by decide
example : natStr 12 = "12" := by decide
example : natStr 120 = "120" := by decide

/-- The destination name tried at counter value `k`:
`base_name + target_ext` first, then `base_name_k + target_ext`. -/
def destCandidate (base_name target_ext : String) : Nat → String
  | 0 => base_name ++ target_ext
  | k + 1 => base_name ++ "_" ++ natStr (k + 1) ++ target_ext

/-- The `while os.path.exists(dest_path)` loop, with explicit fuel;
`|fsSet| + 1` candidates always contain a free one (they are pairwise
distinct), so the fuel in `resolveDest` never runs out. -/
def resolveLoop (fsSet : List String) (base_name target_ext : String) :
    Nat → Nat → Option String
  | 0, _ => none
  | fuel + 1, k =>
    let d := destCandidate base_name target_ext k
    if fsSet.contains d then resolveLoop fsSet base_name target_ext fuel (k + 1)
    else some d

def resolveDest (fsSet : List String) (base_name target_ext : String) : String :=
  match resolveLoop fsSet base_name target_ext (fsSet.length + 1) 0 with
  | some d => d
  | none => destCandidate base_name target_ext 0

example : resolveDest [] "app" ".txt" = "app.txt" := by decide
example : resolveDest ["app.txt"] "app" ".txt" = "app_1.txt" := by decide
example : resolveDest ["app.txt", "app_1.txt"] "app" ".txt" = "app_2.txt" := by decide

/-! ### The execution loop of `run_scan_and_move` (pro_scan.py lines 174-231)

The filesystem side effects are made explicit: the destination directory
state is the list of names present in it, file reads are recorded, and the
fallible environment is passed in as `readF` (text read with lossy
decoding — it may still raise, e.g. `PermissionError`) and `writeF`.
`sys.exit(1)` inside the `except` block is modelled by the `err` field:
once set, the fold ignores all remaining candidates. -/

def pathJoin (parts : List String) : String := String.intercalate "/" parts

/-- `os.path.join(current_root, filename)` for a candidate below the root. -/
def srcPath (root_dir : String) (c : List String × String) : String :=
  pathJoin (root_dir :: (c.1 ++ [c.2]))

/-- `os.path.relpath(source_full_path, root_dir)` for a file below root. -/
def relPath (c : List String × String) : String := pathJoin (c.1 ++ [c.2])

structure LoopSt : Type where
  destFs : List String
  written : List (String × String)
  reads : List String
  processed : Nat
  err : Option (String × String)
deriving DecidableEq

def initSt (destInit : List String) : LoopSt :=
  { destFs := destInit, written := [], reads := [], processed := 0, err := none }

/-- `target_ext = ext_map[f_ext]` for a candidate filename.  The `.getD`
default is never used by the loop: it only receives candidates whose
lowercased `splitext` extension is a key of the mapping. -/
def targetExtOf (ext_map : List (String × String)) (fname : String) : String :=
  (dictGet? ext_map (pyLower (splitext fname).2)).getD ".txt"

/-- The bytes written for one candidate: header, blank line, content. -/
def payloadOf (ext_map : List (String × String)) (c : List String × String)
    (ts content : String) : String :=
  get_header_comment (targetExtOf ext_map c.2) (relPath c) ts ++ "\n\n" ++ content

/-- The collision-resolved destination name for one candidate against the
current destination-directory state. -/
def destNameOf (ext_map : List (String × String)) (destFs : List String)
    (c : List String × String) : String :=
  resolveDest destFs (splitext c.2).1 (targetExtOf ext_map c.2)

/-- One live-mode iteration for one candidate file: read, compute the
destination name, resolve collisions, build the header, write.  The
reported error path is the source path (`[FATAL ERROR] Processing <path>`). -/
def liveStep (root_dir ts : String) (ext_map : List (String × String))
    (readF : String → Except String String)
    (writeF : String → String → Except String Unit)
    (st : LoopSt) (c : List String × String) : LoopSt :=
  if st.err.isSome then st
  else
    let path := srcPath root_dir c
    match readF path with
    | .error r => { st with reads := st.reads ++ [path], err := some (path, r) }
    | .ok content =>
      let dest_name := destNameOf ext_map st.destFs c
      match writeF dest_name (payloadOf ext_map c ts content) with
      | .error r => { st with reads := st.reads ++ [path], err := some (path, r) }
      | .ok _ =>
        { destFs := st.destFs ++ [dest_name],
          written := st.written ++ [(dest_name, payloadOf ext_map c ts content)],
          reads := st.reads ++ [path],
          processed := st.processed + 1,
          err := none }

/-- One dry-run iteration: only the counters advance. -/
def dryStep (st : LoopSt) (_c : List String × String) : LoopSt :=
  if st.err.isSome then st else { st with processed := st.processed + 1 }

def runStep (dry_run : Bool) (root_dir ts : String) (ext_map : List (String × String))
    (readF : String → Except String String)
    (writeF : String → String → Except String Unit)
    (st : LoopSt) (c : List String × String) : LoopSt :=
  if dry_run then dryStep st c else liveStep root_dir ts ext_map readF writeF st c

def runLoop (dry_run : Bool) (root_dir ts : String) (ext_map : List (String × String))
    (readF : String → Except String String)
    (writeF : String → String → Except String Unit)
    (cs : List (List String × String)) (st : LoopSt) : LoopSt :=
  cs.foldl (runStep dry_run root_dir ts ext_map readF writeF) st

structure RunOutcome : Type where
  destFs : List String
  written : List (String × String)
  reads : List String
  processed : Nat
  total : Nat
  summary : Option (Nat × Nat)
  err : Option (String × String)
  exitCode : Nat
  mkdirCalled : Bool
deriving DecidableEq

/-- `run_scan_and_move` (pro_scan.py lines 123-234).  The root directory is
given as the tree `root_dir` plus its path string `root_name`; it is
assumed to exist (a missing root is a `sys.exit(1)` before any traversal).
`dest_init` is the prior content of the destination directory,
`dest_dir_exists` whether it exists (`os.makedirs` is called in live mode
when it does not; its own failure path is not modelled).  `summary` is the
final `Processed: N/M` line, `none` when the run returned early (zero
matches) or aborted. -/
def run_scan_and_move (root_dir : Dir) (root_name : String)
    (dest_init : List String) (dest_dir_exists : Bool)
    (in_exts out_exts excludes : List String) (dry_run : Bool)
    (ts : String) (readF : String → Except String String)
    (writeF : String → String → Except String Unit) : RunOutcome :=
  let ext_map := create_extension_mapping in_exts out_exts
  let valid_targets := dictKeys ext_map
  let mkdirCalled := !dry_run && !dest_dir_exists
  let total_files := count_total_files root_dir valid_targets excludes
  if total_files = 0 then
    { destFs := dest_init, written := [], reads := [], processed := 0,
      total := total_files, summary := none, err := none, exitCode := 0,
      mkdirCalled := mkdirCalled }
  else
    let cs := procCands root_dir ext_map excludes
    let fin := runLoop dry_run root_name ts ext_map readF writeF cs (initSt dest_init)
    { destFs := fin.destFs, written := fin.written, reads := fin.reads,
      processed := fin.processed, total := total_files,
      summary := if fin.err.isSome then none else some (fin.processed, total_files),
      err := fin.err,
      exitCode := if fin.err.isSome then 1 else 0,
      mkdirCalled := mkdirCalled }

/-! ### The Python call protocol, for the optional-tqdm fallback

`pro_scan.py` lines 17-21 define, when `tqdm` cannot be imported,

  `def tqdm(iterable, total=None, unit=""): return iterable`

while line 174 calls `tqdm(total=total_files, unit='file')`.  Python binds
a call by filling parameters left-to-right with positional arguments, then
by keyword; the call raises `TypeError` unless every parameter without a
default is bound.  The model covers exactly such signatures (no `*args`,
`**kwargs`, or keyword-only parameters — the fallback has none). -/

structure PyParam : Type where
  pname : String
  hasDefault : Bool
deriving DecidableEq

structure PyCallArgs : Type where
  nPositional : Nat
  kwargs : List String
deriving DecidableEq

/-- Whether a Python call binds against a parameter list without raising
`TypeError`. -/
def pyCallBinds (ps : List PyParam) (call : PyCallArgs) : Bool :=
  decide (call.nPositional ≤ ps.length) &&
  call.kwargs.all (fun k => (ps.map PyParam.pname).contains k) &&
  (ps.take call.nPositional).all (fun p => !(call.kwargs.contains p.pname)) &&
  (ps.enum.all (fun ip =>
    decide (ip.1 < call.nPositional) || ip.2.hasDefault ||
      call.kwargs.contains ip.2.pname))

/-- The fallback `tqdm`'s signature: `iterable` has no default. -/
def fallback_tqdm_params : List PyParam :=
  [⟨"iterable", false⟩, ⟨"total", true⟩, ⟨"unit", true⟩]

/-- The call site `tqdm(total=total_files, unit='file')` at line 174. -/
def engine_tqdm_call : PyCallArgs := ⟨0, ["total", "unit"]⟩

/-! ### C2: the optional-tqdm fallback cannot be called as the engine calls it -/

/-- C2 (code-bug evidence): the engine's call
`tqdm(total=total_files, unit='file')` does not bind against the fallback's
signature `tqdm(iterable, total=None, unit="")` — `iterable` stays unbound,
so Python raises `TypeError` before any candidate file is processed; a call
that does pass an iterable positionally binds fine, so the failure is the
call/fallback mismatch, not the model. -/
theorem C2_fallback_tqdm_call_fails :
    pyCallBinds fallback_tqdm_params engine_tqdm_call = false ∧
    pyCallBinds fallback_tqdm_params ⟨1, ["total", "unit"]⟩ = true := by decide

/-! ### C5: the traversal invariant -/

mutual
theorem walkD_excl (excludes : List String) (d : Dir) :
    ∀ c ∈ walkD excludes d, ∀ nm ∈ c.1, check_exclusions nm excludes = false := by
  cases d with
  | node fs subs =>
    intro c hc nm hnm
    rw [walkD] at hc
    rcases List.mem_append.mp hc with h1 | h2
    · rcases List.mem_map.mp h1 with ⟨f, _, rfl⟩
      simp at hnm
    · exact walkSubs_excl excludes subs c h2 nm hnm

theorem walkSubs_excl (excludes : List String) (s : Subs) :
    ∀ c ∈ walkSubs excludes s, ∀ nm ∈ c.1, check_exclusions nm excludes = false := by
  cases s with
  | nil =>
    intro c hc
    rw [walkSubs] at hc
    simp at hc
  | cons n d rest =>
    intro c hc nm hnm
    rw [walkSubs] at hc
    rcases List.mem_append.mp hc with h1 | h2
    · split at h1
      · simp at h1
      · next hex =>
        rcases List.mem_map.mp h1 with ⟨q, hq, rfl⟩
        rcases List.mem_cons.mp hnm with rfl | hnm2
        · simpa using hex
        · exact walkD_excl excludes d q hq nm hnm2
    · exact walkSubs_excl excludes rest c h2 nm hnm
end

/-- C5: neither the counting pass nor the processing pass ever selects a
file lying below a directory whose name glob-matches an exclude pattern:
every directory component (below the scan root) of a selected candidate
fails `check_exclusions`. -/
theorem C5_no_candidate_inside_excluded_dir (root_dir : Dir)
    (target_exts excludes : List String) (ext_map : List (String × String))
    (c : List String × String)
    (hc : c ∈ countCands root_dir target_exts excludes ∨
          c ∈ procCands root_dir ext_map excludes) :
    ∀ nm ∈ c.1, check_exclusions nm excludes = false := by
  rcases hc with h | h
  · simp only [countCands, List.mem_filter] at h
    exact walkD_excl excludes root_dir c h.1
  · simp only [procCands, List.mem_filter] at h
    exact walkD_excl excludes root_dir c h.1

/-- Witness for C5: a concrete tree with an excluded `node_modules` branch;
the surviving candidate `keep/d.js` has no excluded component. -/
theorem C5_witness :
    ((["keep"], "d.js") ∈
      countCands
        (.node [] (.cons "node_modules" (.node ["x.js"] .nil)
          (.cons "keep" (.node ["d.js"] .nil) .nil)))
        [".js"] ["node_*"]) ∧
    check_exclusions "keep" ["node_*"] = false := by
  refine ⟨by decide, ?_⟩
  exact C5_no_candidate_inside_excluded_dir
    (.node [] (.cons "node_modules" (.node ["x.js"] .nil)
      (.cons "keep" (.node ["d.js"] .nil) .nil)))
    [".js"] ["node_*"] [] (["keep"], "d.js") (Or.inl (by decide)) "keep" (by decide)

/-! ### Loop lemmas -/

theorem liveStep_read_err (root_dir ts : String) (ext_map : List (String × String))
    (readF : String → Except String String)
    (writeF : String → String → Except String Unit)
    (st : LoopSt) (c : List String × String) (r : String)
    (h : st.err = none) (hr : readF (srcPath root_dir c) = .error r) :
    liveStep root_dir ts ext_map readF writeF st c =
      { st with reads := st.reads ++ [srcPath root_dir c],
                err := some (srcPath root_dir c, r) } := by
  simp only [liveStep]
  rw [if_neg (by simp [h]), hr]

theorem liveStep_write_err (root_dir ts : String) (ext_map : List (String × String))
    (readF : String → Except String String)
    (writeF : String → String → Except String Unit)
    (st : LoopSt) (c : List String × String) (content r : String)
    (h : st.err = none) (hr : readF (srcPath root_dir c) = .ok content)
    (hw : writeF (destNameOf ext_map st.destFs c) (payloadOf ext_map c ts content) =
      .error r) :
    liveStep root_dir ts ext_map readF writeF st c =
      { st with reads := st.reads ++ [srcPath root_dir c],
                err := some (srcPath root_dir c, r) } := by
  simp only [liveStep]
  rw [if_neg (by simp [h]), hr]
  simp only [hw]

theorem liveStep_ok (root_dir ts : String) (ext_map : List (String × String))
    (readF : String → Except String String)
    (writeF : String → String → Except String Unit)
    (st : LoopSt) (c : List String × String) (content : String)
    (h : st.err = none) (hr : readF (srcPath root_dir c) = .ok content)
    (hw : writeF (destNameOf ext_map st.destFs c) (payloadOf ext_map c ts content) =
      .ok ()) :
    liveStep root_dir ts ext_map readF writeF st c =
      { destFs := st.destFs ++ [destNameOf ext_map st.destFs c],
        written := st.written ++ [(destNameOf ext_map st.destFs c,
          payloadOf ext_map c ts content)],
        reads := st.reads ++ [srcPath root_dir c],
        processed := st.processed + 1,
        err := none } := by
  simp only [liveStep]
  rw [if_neg (by simp [h]), hr]
  simp only [hw]

theorem runStep_err (dry_run : Bool) (root_dir ts : String)
    (ext_map : List (String × String)) (readF : String → Except String String)
    (writeF : String → String → Except String Unit)
    (st : LoopSt) (c : List String × String) (h : st.err.isSome) :
    runStep dry_run root_dir ts ext_map readF writeF st c = st := by
  unfold runStep dryStep liveStep
  split <;> rfl

theorem runLoop_err (dry_run : Bool) (root_dir ts : String)
    (ext_map : List (String × String)) (readF : String → Except String String)
    (writeF : String → String → Except String Unit)
    (cs : List (List String × String)) (st : LoopSt) (h : st.err.isSome) :
    runLoop dry_run root_dir ts ext_map readF writeF cs st = st := by
  induction cs with
  | nil => rfl
  | cons c cs ih =>
    show runLoop dry_run root_dir ts ext_map readF writeF cs
      (runStep dry_run root_dir ts ext_map readF writeF st c) = st
    rw [runStep_err dry_run root_dir ts ext_map readF writeF st c h]
    exact ih

theorem runLoop_append (dry_run : Bool) (root_dir ts : String)
    (ext_map : List (String × String)) (readF : String → Except String String)
    (writeF : String → String → Except String Unit)
    (l1 l2 : List (List String × String)) (st : LoopSt) :
    runLoop dry_run root_dir ts ext_map readF writeF (l1 ++ l2) st =
      runLoop dry_run root_dir ts ext_map readF writeF l2
        (runLoop dry_run root_dir ts ext_map readF writeF l1 st) := by
  unfold runLoop
  exact List.foldl_append _ _ l1 l2

theorem runLoop_dry (root_dir ts : String) (ext_map : List (String × String))
    (readF : String → Except String String)
    (writeF : String → String → Except String Unit)
    (cs : List (List String × String)) (st : LoopSt) (h : st.err = none) :
    runLoop true root_dir ts ext_map readF writeF cs st =
      ⟨st.destFs, st.written, st.reads, st.processed + cs.length, none⟩ := by
  induction cs generalizing st with
  | nil =>
    obtain ⟨d, w, r, p, e⟩ := st
    simp only at h
    subst h
    simp [runLoop]
  | cons c cs ih =>
    show runLoop true root_dir ts ext_map readF writeF cs
      (runStep true root_dir ts ext_map readF writeF st c) = _
    have hstep : runStep true root_dir ts ext_map readF writeF st c =
        ⟨st.destFs, st.written, st.reads, st.processed + 1, st.err⟩ := by
      unfold runStep dryStep
      rw [if_pos rfl, if_neg (by simp [h])]
    rw [hstep, ih _ (by simpa using h)]
    simp only [List.length_cons]
    rw [show st.processed + 1 + cs.length = st.processed + (cs.length + 1) from by omega]

theorem runLoop_live_ok (root_dir ts : String) (ext_map : List (String × String))
    (readF : String → Except String String)
    (writeF : String → String → Except String Unit)
    (cs : List (List String × String)) (st : LoopSt) (hst : st.err = none)
    (hfin : (runLoop false root_dir ts ext_map readF writeF cs st).err = none) :
    (runLoop false root_dir ts ext_map readF writeF cs st).processed =
        st.processed + cs.length ∧
    (runLoop false root_dir ts ext_map readF writeF cs st).reads =
        st.reads ++ cs.map (srcPath root_dir) ∧
    (runLoop false root_dir ts ext_map readF writeF cs st).written.length =
        st.written.length + cs.length := by
  induction cs generalizing st with
  | nil => simp [runLoop]
  | cons c cs ih =>
    have hloop : runLoop false root_dir ts ext_map readF writeF (c :: cs) st =
        runLoop false root_dir ts ext_map readF writeF cs
          (liveStep root_dir ts ext_map readF writeF st c) := rfl
    rw [hloop] at hfin ⊢
    cases hr : readF (srcPath root_dir c) with
    | error r =>
      exfalso
      have hS := runLoop_err false root_dir ts ext_map readF writeF cs
        { st with reads := st.reads ++ [srcPath root_dir c],
                  err := some (srcPath root_dir c, r) } (by simp)
      rw [liveStep_read_err root_dir ts ext_map readF writeF st c r hst hr, hS] at hfin
      simp at hfin
    | ok content =>
      cases hw : writeF (destNameOf ext_map st.destFs c)
          (payloadOf ext_map c ts content) with
      | error r =>
        exfalso
        have hS := runLoop_err false root_dir ts ext_map readF writeF cs
          { st with reads := st.reads ++ [srcPath root_dir c],
                    err := some (srcPath root_dir c, r) } (by simp)
        rw [liveStep_write_err root_dir ts ext_map readF writeF st c content r hst hr hw,
            hS] at hfin
        simp at hfin
      | ok u =>
        obtain ⟨⟩ := u
        rw [liveStep_ok root_dir ts ext_map readF writeF st c content hst hr hw] at hfin ⊢
        obtain ⟨h1, h2, h3⟩ := ih _ (by simp) hfin
        refine ⟨?_, ?_, ?_⟩
        · rw [h1]
          show st.processed + 1 + cs.length = st.processed + (c :: cs).length
          simp only [List.length_cons]
          omega
        · rw [h2]
          show st.reads ++ [srcPath root_dir c] ++ cs.map (srcPath root_dir) =
            st.reads ++ (c :: cs).map (srcPath root_dir)
          simp [List.append_assoc]
        · rw [h3]
          show (st.written ++ [(destNameOf ext_map st.destFs c,
              payloadOf ext_map c ts content)]).length + cs.length =
            st.written.length + (c :: cs).length
          simp only [List.length_append, List.length_cons, List.length_nil]
          omega

/-! ### Relating the two passes' selections -/

theorem splitext_snd_suffix (f : String) : (splitext f).2.data <:+ f.data := by
  unfold splitext
  cases h : lastDotIdx? f.data with
  | none =>
    simp only [h]
    exact List.nil_suffix
  | some d =>
    simp only [h]
    split
    · exact List.nil_suffix
    · exact List.drop_suffix d f.data

/-- Every file the processing pass selects, the counting pass counted: the
lowercased `splitext` extension, when it is a mapping key, is in particular
a suffix of the lowercased filename. -/
theorem procMatch_countMatch (ext_map : List (String × String)) (f : String)
    (h : procMatch ext_map f = true) : countMatch (dictKeys ext_map) f = true := by
  unfold procMatch at h
  unfold countMatch
  apply List.any_eq_true.mpr
  refine ⟨pyLower (splitext f).2, (str_contains_iff _ _).mp h, ?_⟩
  unfold pyEndsWith
  apply decide_eq_true
  show ((splitext f).2.data.map pyLowerChar) <:+ (f.data.map pyLowerChar)
  exact List.IsSuffix.map pyLowerChar (splitext_snd_suffix f)

theorem procCands_subset_countCands (root_dir : Dir)
    (ext_map : List (String × String)) (excludes : List String) :
    ∀ c ∈ procCands root_dir ext_map excludes,
      c ∈ countCands root_dir (dictKeys ext_map) excludes := by
  intro c hc
  simp only [procCands, List.mem_filter] at hc
  simp only [countCands, List.mem_filter]
  exact ⟨hc.1, procMatch_countMatch _ _ hc.2⟩

theorem procCands_eq_countCands (root_dir : Dir)
    (ext_map : List (String × String)) (excludes : List String)
    (h : ∀ c ∈ walkD excludes root_dir,
      countMatch (dictKeys ext_map) c.2 = true → procMatch ext_map c.2 = true) :
    procCands root_dir ext_map excludes =
      countCands root_dir (dictKeys ext_map) excludes := by
  unfold procCands countCands
  apply List.filter_congr
  intro c hc
  cases hp : procMatch ext_map c.2 with
  | true => exact (procMatch_countMatch _ _ hp).symm
  | false =>
    cases hcm : countMatch (dictKeys ext_map) c.2 with
    | false => rfl
    | true => exact absurd (h c hc hcm) (by simp [hp])

/-- When the counting pass finds nothing, the processing pass has no
candidates either. -/
theorem procCands_nil_of_count_zero (root_dir : Dir)
    (ext_map : List (String × String)) (excludes : List String)
    (h : count_total_files root_dir (dictKeys ext_map) excludes = 0) :
    procCands root_dir ext_map excludes = [] := by
  unfold count_total_files at h
  have hcc := List.length_eq_zero.mp h
  cases hpc : procCands root_dir ext_map excludes with
  | nil => rfl
  | cons c cs =>
    have : c ∈ procCands root_dir ext_map excludes := by rw [hpc]; exact List.mem_cons_self c cs
    have hmem := procCands_subset_countCands root_dir ext_map excludes c this
    rw [hcc] at hmem
    simp at hmem

/-! ### C7: dry runs do not touch the filesystem -/

theorem run_dry_characterization (root_dir : Dir) (root_name : String)
    (dest_init : List String) (dest_dir_exists : Bool)
    (in_exts out_exts excludes : List String) (ts : String)
    (readF : String → Except String String)
    (writeF : String → String → Except String Unit) :
    (run_scan_and_move root_dir root_name dest_init dest_dir_exists in_exts out_exts
        excludes true ts readF writeF) =
      { destFs := dest_init, written := [], reads := [],
        processed :=
          (procCands root_dir (create_extension_mapping in_exts out_exts) excludes).length,
        total := count_total_files root_dir
          (dictKeys (create_extension_mapping in_exts out_exts)) excludes,
        summary :=
          if count_total_files root_dir
              (dictKeys (create_extension_mapping in_exts out_exts)) excludes = 0
          then none
          else some
            ((procCands root_dir (create_extension_mapping in_exts out_exts) excludes).length,
             count_total_files root_dir
               (dictKeys (create_extension_mapping in_exts out_exts)) excludes),
        err := none, exitCode := 0, mkdirCalled := false } := by
  simp only [run_scan_and_move]
  split
  · next hz =>
    rw [procCands_nil_of_count_zero root_dir (create_extension_mapping in_exts out_exts)
      excludes hz]
    rfl
  · next hz =>
    rw [runLoop_dry root_name ts (create_extension_mapping in_exts out_exts) readF writeF
      (procCands root_dir (create_extension_mapping in_exts out_exts) excludes)
      (initSt dest_init) rfl]
    simp only [initSt, Nat.zero_add]
    rfl

/-- C7: a dry run never modifies the filesystem — the destination directory
is not created, nothing is read, nothing is written, the destination state
is untouched — while the processed counter still advances over all
candidates; on a root with exactly the three matching files `a.js`, `b.js`,
`c.js` and an empty destination it reports `3/3` and the destination stays
empty. -/
theorem C7_dry_run_no_filesystem_effects (root_dir : Dir) (root_name : String)
    (dest_init : List String) (dest_dir_exists : Bool)
    (in_exts out_exts excludes : List String) (ts : String)
    (readF : String → Except String String)
    (writeF : String → String → Except String Unit) :
    ((run_scan_and_move root_dir root_name dest_init dest_dir_exists in_exts out_exts
        excludes true ts readF writeF).mkdirCalled = false ∧
     (run_scan_and_move root_dir root_name dest_init dest_dir_exists in_exts out_exts
        excludes true ts readF writeF).destFs = dest_init ∧
     (run_scan_and_move root_dir root_name dest_init dest_dir_exists in_exts out_exts
        excludes true ts readF writeF).reads = [] ∧
     (run_scan_and_move root_dir root_name dest_init dest_dir_exists in_exts out_exts
        excludes true ts readF writeF).written = [] ∧
     (run_scan_and_move root_dir root_name dest_init dest_dir_exists in_exts out_exts
        excludes true ts readF writeF).processed =
       (procCands root_dir (create_extension_mapping in_exts out_exts) excludes).length ∧
     (run_scan_and_move root_dir root_name dest_init dest_dir_exists in_exts out_exts
        excludes true ts readF writeF).summary =
       (if (run_scan_and_move root_dir root_name dest_init dest_dir_exists in_exts
              out_exts excludes true ts readF writeF).total = 0
        then none
        else some ((run_scan_and_move root_dir root_name dest_init dest_dir_exists
                      in_exts out_exts excludes true ts readF writeF).processed,
                   (run_scan_and_move root_dir root_name dest_init dest_dir_exists
                      in_exts out_exts excludes true ts readF writeF).total))) ∧
    ((run_scan_and_move (.node ["a.js", "b.js", "c.js"] .nil) root_name [] false
        ["js"] ["txt"] [] true ts readF writeF).summary = some (3, 3) ∧
     (run_scan_and_move (.node ["a.js", "b.js", "c.js"] .nil) root_name [] false
        ["js"] ["txt"] [] true ts readF writeF).destFs = [] ∧
     (run_scan_and_move (.node ["a.js", "b.js", "c.js"] .nil) root_name [] false
        ["js"] ["txt"] [] true ts readF writeF).written = [] ∧
     (run_scan_and_move (.node ["a.js", "b.js", "c.js"] .nil) root_name [] false
        ["js"] ["txt"] [] true ts readF writeF).mkdirCalled = false) := by
  rw [run_dry_characterization, run_dry_characterization]
  refine ⟨⟨rfl, rfl, rfl, rfl, rfl, rfl⟩, ⟨?_, rfl, rfl, rfl⟩⟩
  show (if count_total_files (.node ["a.js", "b.js", "c.js"] .nil)
      (dictKeys (create_extension_mapping ["js"] ["txt"])) [] = 0 then none
    else some
      ((procCands (.node ["a.js", "b.js", "c.js"] .nil)
          (create_extension_mapping ["js"] ["txt"]) []).length,
       count_total_files (.node ["a.js", "b.js", "c.js"] .nil)
         (dictKeys (create_extension_mapping ["js"] ["txt"])) [])) = some (3, 3)
  · rw [if_neg (by decide)]
    have h1 :
        (procCands (.node ["a.js", "b.js", "c.js"] .nil)
          (create_extension_mapping ["js"] ["txt"]) []).length = 3 := by decide
    have h2 :
        count_total_files (.node ["a.js", "b.js", "c.js"] .nil)
          (dictKeys (create_extension_mapping ["js"] ["txt"])) [] = 3 := by decide
    rw [h1, h2]

/-! ### C1: the two passes agree only up to the suffix-vs-splitext mismatch -/

theorem run_live_ok_summary (root_dir : Dir) (root_name : String)
    (dest_init : List String) (dest_dir_exists : Bool)
    (in_exts out_exts excludes : List String) (ts : String)
    (readF : String → Except String String)
    (writeF : String → String → Except String Unit)
    (h : (run_scan_and_move root_dir root_name dest_init dest_dir_exists in_exts out_exts
        excludes false ts readF writeF).err = none) :
    (run_scan_and_move root_dir root_name dest_init dest_dir_exists in_exts out_exts
        excludes false ts readF writeF).total =
      count_total_files root_dir
        (dictKeys (create_extension_mapping in_exts out_exts)) excludes ∧
    (run_scan_and_move root_dir root_name dest_init dest_dir_exists in_exts out_exts
        excludes false ts readF writeF).summary =
      (if count_total_files root_dir
            (dictKeys (create_extension_mapping in_exts out_exts)) excludes = 0
       then none
       else some
         ((procCands root_dir (create_extension_mapping in_exts out_exts) excludes).length,
          count_total_files root_dir
            (dictKeys (create_extension_mapping in_exts out_exts)) excludes)) := by
  simp only [run_scan_and_move] at h ⊢
  split at h
  · next hz =>
    rw [if_pos hz, if_pos hz]
    exact ⟨rfl, rfl⟩
  · next hz =>
    rw [if_neg hz, if_neg hz]
    simp only at h
    refine ⟨rfl, ?_⟩
    have hok := runLoop_live_ok root_name ts (create_extension_mapping in_exts out_exts)
      readF writeF (procCands root_dir (create_extension_mapping in_exts out_exts) excludes)
      (initSt dest_init) rfl h
    rw [h, hok.1]
    simp [initSt]

/-- C1 (amended): the processing pass selects a subset of what the counting
pass counted (the counting pass uses a lowercased *suffix* match while the
processing pass uses the `splitext` extension, so it may additionally count
files such as the dotfile `.js`); when no counted file escapes the
`splitext` test the two selections are equal and an error-free live run
reports N/N. -/
theorem C1_two_pass_agreement_amended (root_dir : Dir)
    (in_exts out_exts excludes : List String) :
    (∀ c ∈ procCands root_dir (create_extension_mapping in_exts out_exts) excludes,
       c ∈ countCands root_dir
         (dictKeys (create_extension_mapping in_exts out_exts)) excludes) ∧
    ((∀ c ∈ walkD excludes root_dir,
        countMatch (dictKeys (create_extension_mapping in_exts out_exts)) c.2 = true →
        procMatch (create_extension_mapping in_exts out_exts) c.2 = true) →
      procCands root_dir (create_extension_mapping in_exts out_exts) excludes =
        countCands root_dir (dictKeys (create_extension_mapping in_exts out_exts)) excludes ∧
      ∀ (root_name : String) (dest_init : List String) (dest_dir_exists : Bool)
        (ts : String) (readF : String → Except String String)
        (writeF : String → String → Except String Unit),
        (run_scan_and_move root_dir root_name dest_init dest_dir_exists in_exts out_exts
            excludes false ts readF writeF).err = none →
        (run_scan_and_move root_dir root_name dest_init dest_dir_exists in_exts out_exts
            excludes false ts readF writeF).summary =
          (if (run_scan_and_move root_dir root_name dest_init dest_dir_exists in_exts
                out_exts excludes false ts readF writeF).total = 0
           then none
           else some
             ((run_scan_and_move root_dir root_name dest_init dest_dir_exists in_exts
                out_exts excludes false ts readF writeF).total,
              (run_scan_and_move root_dir root_name dest_init dest_dir_exists in_exts
                out_exts excludes false ts readF writeF).total))) := by
  refine ⟨procCands_subset_countCands root_dir _ excludes, ?_⟩
  intro hall
  have heq := procCands_eq_countCands root_dir
    (create_extension_mapping in_exts out_exts) excludes hall
  refine ⟨heq, ?_⟩
  intro root_name dest_init dest_dir_exists ts readF writeF herr
  obtain ⟨ht, hs⟩ := run_live_ok_summary root_dir root_name dest_init dest_dir_exists
    in_exts out_exts excludes ts readF writeF herr
  rw [hs, ht]
  have hlen :
      (procCands root_dir (create_extension_mapping in_exts out_exts) excludes).length =
        count_total_files root_dir
          (dictKeys (create_extension_mapping in_exts out_exts)) excludes := by
    rw [heq]
    rfl
  rw [hlen]

/-- C1 counterexample: a file named `.js` (no `splitext` extension, but a
lowercased-suffix match for the key `.js`) is counted by the counting pass
yet never processed, so the two selections differ and the live summary
reads `0/1`, not N/N. -/
theorem C1_counterexample_dotfile :
    count_total_files (.node [".js"] .nil)
        (dictKeys (create_extension_mapping ["js"] ["txt"])) [] = 1 ∧
    procCands (.node [".js"] .nil) (create_extension_mapping ["js"] ["txt"]) [] = [] ∧
    (run_scan_and_move (.node [".js"] .nil) "root" [] true ["js"] ["txt"] [] false "T"
        (fun _ => .ok "B") (fun _ _ => .ok ())).summary = some (0, 1) := by decide

/-- Witness for C1 (amended): on a tree without suffix/splitext mismatches
the live run reports 1/1. -/
theorem C1_witness :
    (run_scan_and_move (.node ["a.js"] .nil) "root" [] true ["js"] ["txt"] [] false "T"
        (fun _ => .ok "B") (fun _ _ => .ok ())).summary = some (1, 1) := by
  have h := (C1_two_pass_agreement_amended (.node ["a.js"] .nil) ["js"] ["txt"] []).2
    (by decide)
  have h2 := h.2 "root" [] true "T" (fun _ => .ok "B") (fun _ _ => .ok ()) (by decide)
  rw [h2]
  decide

/-! ### C3: any per-file read/write error in live mode is fatal -/

/-- C3: in live mode, if processing the `k`-th candidate raises (its read
or its write fails) while the first `k` candidates succeeded, then the run
exits with code 1 and no summary, the error report carries the offending
source path and the underlying reason, the destination keeps exactly the
files written for the first `k` candidates (no rollback), and no candidate
after the `k`-th is ever read or written. -/
theorem C3_live_error_fatal (root_dir : Dir) (root_name : String)
    (dest_init : List String) (dest_dir_exists : Bool)
    (in_exts out_exts excludes : List String) (ts : String)
    (readF : String → Except String String)
    (writeF : String → String → Except String Unit) (k : Nat)
    (cs : List (List String × String))
    (hcs : cs = procCands root_dir (create_extension_mapping in_exts out_exts) excludes)
    (hk : k < cs.length)
    (st_k : LoopSt)
    (hst : st_k = runLoop false root_name ts (create_extension_mapping in_exts out_exts)
      readF writeF (cs.take k) (initSt dest_init))
    (hpre : st_k.err = none)
    (hfail : (liveStep root_name ts (create_extension_mapping in_exts out_exts) readF
      writeF st_k (cs.get ⟨k, hk⟩)).err ≠ none)
    (out : RunOutcome)
    (hout : out = run_scan_and_move root_dir root_name dest_init dest_dir_exists
      in_exts out_exts excludes false ts readF writeF) :
    out.exitCode = 1 ∧
    out.summary = none ∧
    (∃ r, out.err = some (srcPath root_name (cs.get ⟨k, hk⟩), r)) ∧
    out.written = st_k.written ∧
    out.destFs = st_k.destFs ∧
    out.reads = st_k.reads ++ [srcPath root_name (cs.get ⟨k, hk⟩)] ∧
    st_k.written.length = k ∧
    st_k.reads = (cs.take k).map (srcPath root_name) ∧
    st_k.processed = k := by
  have hcount : ¬ count_total_files root_dir
      (dictKeys (create_extension_mapping in_exts out_exts)) excludes = 0 := by
    intro h0
    rw [hcs, procCands_nil_of_count_zero root_dir
      (create_extension_mapping in_exts out_exts) excludes h0] at hk
    simp at hk
  -- decompose the candidate list around index k
  have hdecomp : cs = cs.take k ++ (cs.get ⟨k, hk⟩ :: cs.drop (k + 1)) := by
    conv_lhs => rw [← List.take_append_drop k cs]
    rw [List.drop_eq_getElem_cons hk]
    simp [List.get_eq_getElem]
  -- the whole live fold collapses onto the failing step
  have hfin : runLoop false root_name ts (create_extension_mapping in_exts out_exts)
      readF writeF cs (initSt dest_init) =
      liveStep root_name ts (create_extension_mapping in_exts out_exts) readF writeF
        st_k (cs.get ⟨k, hk⟩) := by
    conv_lhs => rw [hdecomp]
    rw [runLoop_append]
    rw [← hst]
    have hone : runLoop false root_name ts (create_extension_mapping in_exts out_exts)
        readF writeF (cs.get ⟨k, hk⟩ :: cs.drop (k + 1)) st_k =
        runLoop false root_name ts (create_extension_mapping in_exts out_exts)
          readF writeF (cs.drop (k + 1))
          (liveStep root_name ts (create_extension_mapping in_exts out_exts) readF writeF
            st_k (cs.get ⟨k, hk⟩)) := rfl
    rw [hone]
    exact runLoop_err false root_name ts (create_extension_mapping in_exts out_exts)
      readF writeF (cs.drop (k + 1)) _ (Option.isSome_iff_ne_none.mpr hfail)
  -- facts about the successful prefix
  have htk : (cs.take k).length = k := by
    rw [List.length_take]
    omega
  obtain ⟨hp1, hp2, hp3⟩ := runLoop_live_ok root_name ts
    (create_extension_mapping in_exts out_exts) readF writeF (cs.take k)
    (initSt dest_init) rfl (by rw [← hst]; exact hpre)
  rw [← hst] at hp1 hp2 hp3
  have hwlen : st_k.written.length = k := by
    rw [hp3, htk]
    simp [initSt]
  have hreads : st_k.reads = (cs.take k).map (srcPath root_name) := by
    rw [hp2]
    simp [initSt]
  have hproc : st_k.processed = k := by
    rw [hp1, htk]
    simp [initSt]
  -- the failing step's outcome
  subst hout
  simp only [run_scan_and_move]
  rw [if_neg hcount, ← hcs, hfin]
  cases hr : readF (srcPath root_name (cs.get ⟨k, hk⟩)) with
  | error r =>
    rw [liveStep_read_err root_name ts (create_extension_mapping in_exts out_exts)
      readF writeF st_k (cs.get ⟨k, hk⟩) r hpre hr]
    refine ⟨rfl, rfl, ⟨r, rfl⟩, rfl, rfl, rfl, hwlen, hreads, hproc⟩
  | ok content =>
    cases hw : writeF (destNameOf (create_extension_mapping in_exts out_exts)
        st_k.destFs (cs.get ⟨k, hk⟩))
        (payloadOf (create_extension_mapping in_exts out_exts) (cs.get ⟨k, hk⟩) ts
          content) with
    | error r =>
      rw [liveStep_write_err root_name ts (create_extension_mapping in_exts out_exts)
        readF writeF st_k (cs.get ⟨k, hk⟩) content r hpre hr hw]
      refine ⟨rfl, rfl, ⟨r, rfl⟩, rfl, rfl, rfl, hwlen, hreads, hproc⟩
    | ok u =>
      obtain ⟨⟩ := u
      exact absurd (by
        rw [liveStep_ok root_name ts (create_extension_mapping in_exts out_exts)
          readF writeF st_k (cs.get ⟨k, hk⟩) content hpre hr hw]) hfail

/-- Witness for C3: a two-file tree where reading `b.js` fails; the run
exits 1. -/
theorem C3_witness :
    (run_scan_and_move (.node ["a.js", "b.js"] .nil) "root" [] true ["js"] ["txt"] []
        false "T"
        (fun p => if p = "root/b.js" then Except.error "denied" else Except.ok "B")
        (fun _ _ => Except.ok ())).exitCode = 1 := by
  exact (C3_live_error_fatal (.node ["a.js", "b.js"] .nil) "root" [] true ["js"] ["txt"]
    [] "T" (fun p => if p = "root/b.js" then Except.error "denied" else Except.ok "B")
    (fun _ _ => Except.ok ()) 1 _ rfl (by decide) _ rfl (by decide) (by decide)
    _ rfl).1

/-! ### C4: collision-safe destination naming -/

theorem toNat_digitChar (d : Nat) (h : d < 10) : (digitChar d).toNat = 48 + d :=
  toNat_ofNat_valid _ (by omega)

/-- The number denoted by a little-endian list of decimal digit
characters. -/
def digitsVal : List Char → Nat
  | [] => 0
  | c :: cs => (c.toNat - 48) + 10 * digitsVal cs

theorem digitsVal_natDigitsF (fuel n : Nat) (h : n ≤ fuel) :
    digitsVal (natDigitsF fuel n) = n := by
  induction fuel generalizing n with
  | zero =>
    have hn : n = 0 := by omega
    subst hn
    rfl
  | succ fuel ih =>
    cases n with
    | zero => rfl
    | succ m =>
      show (digitChar ((m + 1) % 10)).toNat - 48 +
        10 * digitsVal (natDigitsF fuel ((m + 1) / 10)) = m + 1
      rw [toNat_digitChar _ (Nat.mod_lt _ (by omega))]
      rw [ih ((m + 1) / 10) (by
        have := Nat.div_lt_self (Nat.succ_pos m) (by omega : 1 < 10)
        omega)]
      omega

theorem natStr_inj (a b : Nat) (h : natStr a = natStr b) : a = b := by
  unfold natStr at h
  by_cases ha : a = 0 <;> by_cases hb : b = 0
  · omega
  · exfalso
    rw [if_pos ha, if_neg hb] at h
    have h2 := congrArg (fun s : String => digitsVal s.data.reverse) h
    simp only [data_mk, List.reverse_reverse] at h2
    rw [digitsVal_natDigitsF b b (Nat.le_refl b)] at h2
    have h0 : digitsVal ("0".data.reverse) = 0 := by decide
    rw [h0] at h2
    exact hb h2.symm
  · exfalso
    rw [if_neg ha, if_pos hb] at h
    have h2 := congrArg (fun s : String => digitsVal s.data.reverse) h
    simp only [data_mk, List.reverse_reverse] at h2
    rw [digitsVal_natDigitsF a a (Nat.le_refl a)] at h2
    have h0 : digitsVal ("0".data.reverse) = 0 := by decide
    rw [h0] at h2
    exact ha h2
  · rw [if_neg ha, if_neg hb] at h
    have h2 := congrArg (fun s : String => digitsVal s.data.reverse) h
    simp only [data_mk, List.reverse_reverse] at h2
    rw [digitsVal_natDigitsF a a (Nat.le_refl a),
        digitsVal_natDigitsF b b (Nat.le_refl b)] at h2
    exact h2

theorem natStr_ne_nil (n : Nat) : (natStr n).data ≠ [] := by
  cases n with
  | zero => decide
  | succ m =>
    unfold natStr
    rw [if_neg (by omega)]
    show ((digitChar ((m + 1) % 10) :: natDigitsF m ((m + 1) / 10)).reverse : List Char) ≠ []
    rw [Ne, List.reverse_eq_nil_iff]
    simp

theorem destCandidate_inj (base_name target_ext : String) (j k : Nat)
    (h : destCandidate base_name target_ext j = destCandidate base_name target_ext k) :
    j = k := by
  cases j with
  | zero =>
    cases k with
    | zero => rfl
    | succ k' =>
      exfalso
      have hlen := congrArg (fun s : String => s.data.length) h
      simp only [destCandidate, String.data_append, List.length_append] at hlen
      have hs := List.length_pos.mpr (natStr_ne_nil (k' + 1))
      have h1 : ("_" : String).data.length = 1 := by decide
      omega
  | succ j' =>
    cases k with
    | zero =>
      exfalso
      have hlen := congrArg (fun s : String => s.data.length) h
      simp only [destCandidate, String.data_append, List.length_append] at hlen
      have hs := List.length_pos.mpr (natStr_ne_nil (j' + 1))
      have h1 : ("_" : String).data.length = 1 := by decide
      omega
    | succ k' =>
      have hd := congrArg String.data h
      simp only [destCandidate, String.data_append, List.append_assoc] at hd
      have hd2 := List.append_cancel_left hd
      have hd3 := List.append_cancel_left hd2
      have hd4 := List.append_cancel_right hd3
      have := natStr_inj (j' + 1) (k' + 1) (String.ext hd4)
      omega

/-- Among the first `|fsSet| + 1` candidate names, at least one is not in
`fsSet` (they are pairwise distinct). -/
theorem exists_free_candidate (fsSet : List String) (base_name target_ext : String) :
    ∃ k, k ≤ fsSet.length ∧
      fsSet.contains (destCandidate base_name target_ext k) = false := by
  by_contra hcon
  push_neg at hcon
  have hall : ∀ k, k ≤ fsSet.length →
      destCandidate base_name target_ext k ∈ fsSet := by
    intro k hk
    have := hcon k hk
    have hb : fsSet.contains (destCandidate base_name target_ext k) = true := by
      cases hc : fsSet.contains (destCandidate base_name target_ext k) with
      | true => rfl
      | false => exact absurd hc this
    exact (str_contains_iff _ _).mp hb
  have hnd : ((List.range (fsSet.length + 1)).map
      (destCandidate base_name target_ext)).Nodup :=
    List.Nodup.map (fun a b hab => destCandidate_inj base_name target_ext a b hab)
      (List.nodup_range _)
  have hsub : ((List.range (fsSet.length + 1)).map
      (destCandidate base_name target_ext)) ⊆ fsSet := by
    intro x hx
    rcases List.mem_map.mp hx with ⟨k, hk, rfl⟩
    exact hall k (by simpa [Nat.lt_succ_iff] using List.mem_range.mp hk)
  have hle := (List.subperm_of_subset hnd hsub).length_le
  simp at hle

theorem resolveLoop_finds (fsSet : List String) (base_name target_ext : String) :
    ∀ fuel start,
      (∃ k, k < fuel ∧
        fsSet.contains (destCandidate base_name target_ext (start + k)) = false) →
      ∃ k, k < fuel ∧
        fsSet.contains (destCandidate base_name target_ext (start + k)) = false ∧
        (∀ j, j < k →
          fsSet.contains (destCandidate base_name target_ext (start + j)) = true) ∧
        resolveLoop fsSet base_name target_ext fuel start =
          some (destCandidate base_name target_ext (start + k)) := by
  intro fuel
  induction fuel with
  | zero =>
    rintro start ⟨k, hk, -⟩
    omega
  | succ fuel ih =>
    rintro start ⟨k0, hk0, hfree0⟩
    by_cases hc : fsSet.contains (destCandidate base_name target_ext start) = true
    · have hne : k0 ≠ 0 := by
        intro h0
        rw [h0, Nat.add_zero] at hfree0
        rw [hfree0] at hc
        simp at hc
      obtain ⟨k1, rfl⟩ : ∃ k1, k0 = k1 + 1 := ⟨k0 - 1, by omega⟩
      have hshift : fsSet.contains
          (destCandidate base_name target_ext (start + 1 + k1)) = false := by
        rw [show start + 1 + k1 = start + (k1 + 1) from by omega]
        exact hfree0
      obtain ⟨k2, hk2, hfree2, hbelow2, hloop2⟩ := ih (start + 1)
        ⟨k1, by omega, hshift⟩
      refine ⟨k2 + 1, by omega, ?_, ?_, ?_⟩
      · rw [show start + (k2 + 1) = start + 1 + k2 from by omega]
        exact hfree2
      · intro j hj
        cases j with
        | zero => simpa using hc
        | succ j' =>
          rw [show start + (j' + 1) = start + 1 + j' from by omega]
          exact hbelow2 j' (by omega)
      · show (if fsSet.contains (destCandidate base_name target_ext start) = true
            then resolveLoop fsSet base_name target_ext fuel (start + 1)
            else some (destCandidate base_name target_ext start)) =
          some (destCandidate base_name target_ext (start + (k2 + 1)))
        rw [if_pos hc, hloop2,
          show start + 1 + k2 = start + (k2 + 1) from by omega]
    · refine ⟨0, by omega, ?_, by omega, ?_⟩
      · rw [Nat.add_zero]
        cases hcc : fsSet.contains (destCandidate base_name target_ext start) with
        | true => exact absurd hcc hc
        | false => rfl
      · show (if fsSet.contains (destCandidate base_name target_ext start) = true
            then resolveLoop fsSet base_name target_ext fuel (start + 1)
            else some (destCandidate base_name target_ext start)) =
          some (destCandidate base_name target_ext (start + 0))
        rw [if_neg hc, Nat.add_zero]

/-- The specification of the collision loop: `resolveDest` is the first
candidate (`base`, then `base_1`, `base_2`, …) not present in the
destination, and the bounded loop indeed terminates with it. -/
theorem resolveDest_spec (fsSet : List String) (base_name target_ext : String) :
    fsSet.contains (resolveDest fsSet base_name target_ext) = false ∧
    (∃ k, resolveDest fsSet base_name target_ext =
        destCandidate base_name target_ext k ∧
      ∀ j, j < k →
        fsSet.contains (destCandidate base_name target_ext j) = true) ∧
    resolveLoop fsSet base_name target_ext (fsSet.length + 1) 0 =
      some (resolveDest fsSet base_name target_ext) := by
  obtain ⟨k0, hk0, hfree0⟩ := exists_free_candidate fsSet base_name target_ext
  obtain ⟨k, hk, hfree, hbelow, hloop⟩ := resolveLoop_finds fsSet base_name target_ext
    (fsSet.length + 1) 0 ⟨k0, by omega, by rw [Nat.zero_add]; exact hfree0⟩
  have hdest : resolveDest fsSet base_name target_ext =
      destCandidate base_name target_ext k := by
    unfold resolveDest
    rw [hloop, Nat.zero_add]
  refine ⟨?_, ⟨k, hdest, ?_⟩, ?_⟩
  · rw [hdest]
    rw [Nat.zero_add] at hfree
    exact hfree
  · intro j hj
    have := hbelow j hj
    rwa [Nat.zero_add] at this
  · rw [hdest, hloop, Nat.zero_add]

/-- The live loop writes only to fresh names: the destination state is the
initial contents plus the written names, the written names are pairwise
distinct, and none of them collides with a pre-existing file. -/
theorem runLoop_live_inv (root_name ts : String) (ext_map : List (String × String))
    (readF : String → Except String String)
    (writeF : String → String → Except String Unit)
    (cs : List (List String × String)) (st : LoopSt) (dest_init : List String)
    (h1 : st.destFs = dest_init ++ st.written.map Prod.fst)
    (h2 : (st.written.map Prod.fst).Nodup)
    (h3 : ∀ nm ∈ st.written.map Prod.fst, nm ∉ dest_init) :
    (runLoop false root_name ts ext_map readF writeF cs st).destFs =
      dest_init ++
        (runLoop false root_name ts ext_map readF writeF cs st).written.map Prod.fst ∧
    ((runLoop false root_name ts ext_map readF writeF cs st).written.map Prod.fst).Nodup ∧
    ∀ nm ∈ (runLoop false root_name ts ext_map readF writeF cs st).written.map Prod.fst,
      nm ∉ dest_init := by
  induction cs generalizing st with
  | nil => exact ⟨h1, h2, h3⟩
  | cons c cs ih =>
    cases he : st.err with
    | some e =>
      rw [runLoop_err false root_name ts ext_map readF writeF (c :: cs) st (by simp [he])]
      exact ⟨h1, h2, h3⟩
    | none =>
      have hloop : runLoop false root_name ts ext_map readF writeF (c :: cs) st =
          runLoop false root_name ts ext_map readF writeF cs
            (liveStep root_name ts ext_map readF writeF st c) := rfl
      rw [hloop]
      cases hr : readF (srcPath root_name c) with
      | error r =>
        rw [liveStep_read_err root_name ts ext_map readF writeF st c r he hr]
        exact ih _ h1 h2 h3
      | ok content =>
        cases hw : writeF (destNameOf ext_map st.destFs c)
            (payloadOf ext_map c ts content) with
        | error r =>
          rw [liveStep_write_err root_name ts ext_map readF writeF st c content r he hr hw]
          exact ih _ h1 h2 h3
        | ok u =>
          obtain ⟨⟩ := u
          rw [liveStep_ok root_name ts ext_map readF writeF st c content he hr hw]
          have hfree : (destNameOf ext_map st.destFs c) ∉ st.destFs := by
            intro hmem
            have hcont := (str_contains_iff st.destFs
              (destNameOf ext_map st.destFs c)).mpr hmem
            simp only [destNameOf] at hcont
            rw [(resolveDest_spec st.destFs (splitext c.2).1
              (targetExtOf ext_map c.2)).1] at hcont
            simp at hcont
          have hni : (destNameOf ext_map st.destFs c) ∉ dest_init := by
            intro hx
            apply hfree
            nth_rewrite 1 [h1]
            exact List.mem_append.mpr (Or.inl hx)
          have hnw : (destNameOf ext_map st.destFs c) ∉ st.written.map Prod.fst := by
            intro hx
            apply hfree
            nth_rewrite 1 [h1]
            exact List.mem_append.mpr (Or.inr hx)
          apply ih
          · show st.destFs ++ [destNameOf ext_map st.destFs c] =
              dest_init ++ (st.written ++ [(destNameOf ext_map st.destFs c,
                payloadOf ext_map c ts content)]).map Prod.fst
            rw [h1, List.map_append, List.append_assoc]
            rfl
          · show ((st.written ++ [(destNameOf ext_map st.destFs c,
                payloadOf ext_map c ts content)]).map Prod.fst).Nodup
            rw [List.map_append]
            simp [List.nodup_append, h2, hnw]
          · show ∀ nm ∈ (st.written ++ [(destNameOf ext_map st.destFs c,
                payloadOf ext_map c ts content)]).map Prod.fst, nm ∉ dest_init
            intro nm hnm
            rw [List.map_append] at hnm
            rcases List.mem_append.mp hnm with hx | hx
            · exact h3 nm hx
            · rcases List.mem_singleton.mp (by simpa using hx) with rfl
              exact hni

/-- C4: the engine never overwrites: `resolveDest` returns the first free
candidate name (`base+ext`, then `base_1+ext`, `base_2+ext`, …), every run
writes pairwise-distinct fresh names never colliding with pre-existing
destination files, and two sources that both map to base `app` with output
`.txt` come out as `app.txt` and `app_1.txt`. -/
theorem C4_collision_safe_naming :
    (∀ (fsSet : List String) (base_name target_ext : String),
      fsSet.contains (resolveDest fsSet base_name target_ext) = false ∧
      (∃ k, resolveDest fsSet base_name target_ext =
          destCandidate base_name target_ext k ∧
        ∀ j, j < k →
          fsSet.contains (destCandidate base_name target_ext j) = true) ∧
      resolveLoop fsSet base_name target_ext (fsSet.length + 1) 0 =
        some (resolveDest fsSet base_name target_ext)) ∧
    (∀ (root_dir : Dir) (root_name : String) (dest_init : List String)
      (dest_dir_exists : Bool) (in_exts out_exts excludes : List String) (ts : String)
      (readF : String → Except String String)
      (writeF : String → String → Except String Unit),
      ((run_scan_and_move root_dir root_name dest_init dest_dir_exists in_exts out_exts
          excludes false ts readF writeF).written.map Prod.fst).Nodup ∧
      ∀ nm ∈ (run_scan_and_move root_dir root_name dest_init dest_dir_exists in_exts
          out_exts excludes false ts readF writeF).written.map Prod.fst,
        nm ∉ dest_init) ∧
    ((run_scan_and_move (.node ["app.js", "app.py"] .nil) "root" [] true ["js", "py"]
        ["txt"] [] false "T" (fun _ => .ok "B")
        (fun _ _ => .ok ())).written.map Prod.fst = ["app.txt", "app_1.txt"]) := by
  refine ⟨resolveDest_spec, ?_, by decide⟩
  intro root_dir root_name dest_init dest_dir_exists in_exts out_exts excludes ts
    readF writeF
  simp only [run_scan_and_move]
  split
  · exact ⟨List.nodup_nil, by simp⟩
  · have hinv := runLoop_live_inv root_name ts
      (create_extension_mapping in_exts out_exts) readF writeF
      (procCands root_dir (create_extension_mapping in_exts out_exts) excludes)
      (initSt dest_init) dest_init (by simp [initSt]) (by simp [initSt])
      (by simp [initSt])
    exact ⟨hinv.2.1, hinv.2.2⟩

/-- Witness for C4: with `app.txt` pre-existing in the destination, the
first write goes to the fresh name `app_1.txt`, which indeed does not
collide with the pre-existing file. -/
theorem C4_witness :
    ("app_1.txt" ∈ (run_scan_and_move (.node ["app.js", "app.py"] .nil) "root"
        ["app.txt"] true ["js", "py"] ["txt"] [] false "T" (fun _ => .ok "B")
        (fun _ _ => .ok ())).written.map Prod.fst) ∧
    "app_1.txt" ∉ ["app.txt"] := by
  refine ⟨by decide, ?_⟩
  exact (C4_collision_safe_naming.2.1 (.node ["app.js", "app.py"] .nil) "root"
    ["app.txt"] true ["js", "py"] ["txt"] [] "T" (fun _ => .ok "B")
    (fun _ _ => .ok ())).2 "app_1.txt" (by decide)

end ProScan
